import Mathlib

/-!
# Analysis cache of `tools/analyze_project.go`

A shallow embedding of the project-analysis cache (the package-level `cache`
variable and the functions that read and write it) together with theorems
about its capacity bound, expiry, eviction and hit counting, and of the
message written by `formatAnalysisResult`.

Modelling conventions.

* The shared `cache.entries` map is passed explicitly: every function takes the
  map it finds and returns the map it leaves.  The mutex is not modelled, each
  function body is one critical section.
* A Go `map[string]*cacheEntry` is a list of key/entry pairs with distinct keys
  (`Store.WF`).  The order of the list is the order in which the next `range`
  loop visits the entries; Go leaves that order unspecified, so statements that
  hold for every list hold for every iteration order.
* `time.Time` is an integer count of nanoseconds since the zero instant and
  `time.Duration` an integer count of nanoseconds.  Every call of `time.Now()`
  is a parameter.
* `entry.hits` and `totalHits` are Go `int`s, taken as 64-bit two's complement
  integers: a value is an `Int` and every addition on it is followed by
  `wrapInt`, which brings the result back into the range from `minInt` to
  `maxInt`.  A counter bounded by the length of a slice is a natural number.
-/

namespace Tools

set_option maxRecDepth 100000

/-! ## Types declared in package `analyzer`

Only the fields that `tools/analyze_project.go` reads are listed; a field named
`Type` in Go is `Type_` here. -/

/-- Element of `service.Endpoints`. -/
structure Endpoint where
  Method : String
  Path : String
  Handler : String
deriving DecidableEq, Repr

/-- Element of `service.RPCMethods`. -/
structure RPCMethod where
  Name : String
  Request : String
  Response : String
  Stream : Bool
deriving DecidableEq, Repr

/-- Element of `analysis.Services`. -/
structure Service where
  Name : String
  Type_ : String
  Path : String
  SpecFile : String
  Endpoints : List Endpoint
  RPCMethods : List RPCMethod
deriving DecidableEq, Repr

/-- Element of `analysis.Dependencies`. -/
structure Dependency where
  Name : String
  Version : String
  Type_ : String
deriving DecidableEq, Repr

/-- Element of `analysis.Configs`. -/
structure ConfigFile where
  Path : String
  Type_ : String
deriving DecidableEq, Repr

/-- The value of `analysis.Summary`. -/
structure Summary where
  TotalServices : Int
  APIServices : Int
  RPCServices : Int
  TotalEndpoints : Int
  TotalRPCMethods : Int
  TotalDependencies : Int
  GoZeroVersion : String
deriving DecidableEq, Repr

/-- The struct `analyzer.ProjectAnalysis`. -/
structure ProjectAnalysis where
  ProjectPath : String
  Summary : Summary
  Services : List Service
  Dependencies : List Dependency
  Configs : List ConfigFile
deriving DecidableEq, Repr

/-! ## Time -/

/-- A `time.Time`: nanoseconds since the zero instant. -/
abbrev Time := Int

/-- A `time.Duration`: nanoseconds. -/
abbrev Duration := Int

/-- The smallest `time.Duration`. -/
def minDuration : Duration := -(2 : Int) ^ 63

/-- The largest `time.Duration`. -/
def maxDuration : Duration := (2 : Int) ^ 63 - 1

/-- The constant `time.Minute`. -/
def Minute : Duration := 60 * 1000000000

/-- The method `t.Sub(u)`: the difference `t - u`, saturated to the range of
`time.Duration`. -/
def timeSub (t u : Time) : Duration :=
  if t - u < minDuration then minDuration
  else if maxDuration < t - u then maxDuration
  else t - u

/-- The method `t.IsZero()`. -/
def timeIsZero (t : Time) : Bool := decide (t = 0)

/-- The method `t.Before(u)`. -/
def timeBefore (t u : Time) : Bool := decide (t < u)

/-! ## Machine integers -/

/-- The smallest value of a Go `int`. -/
def minInt : Int := -(2 : Int) ^ 63

/-- The largest value of a Go `int`. -/
def maxInt : Int := (2 : Int) ^ 63 - 1

/-- The value a Go `int` takes when the exact result of an operation is `x`:
`x` reduced modulo `2 ^ 64` into the range from `minInt` to `maxInt`. -/
def wrapInt (x : Int) : Int := (x + (2 : Int) ^ 63) % (2 : Int) ^ 64 - (2 : Int) ^ 63

/-! ## The cache -/

/-- The constant `cacheTTL = 5 * time.Minute`. -/
def cacheTTL : Duration := 5 * Minute

/-- The constant `maxCacheEntries`. -/
def maxCacheEntries : Nat := 100

/-- The struct `cacheEntry`; `analysis` is a pointer, `none` is `nil`. -/
structure cacheEntry where
  analysis : Option ProjectAnalysis
  timestamp : Time
  hits : Int
deriving DecidableEq, Repr

/-- The map `cache.entries`. -/
abbrev Store := List (String × cacheEntry)

/-- The keys of the map, in iteration order. -/
def Store.keys (s : Store) : List String := s.map Prod.fst

/-- A well-formed map holds each key once. -/
def Store.WF (s : Store) : Prop := s.keys.Nodup

instance (s : Store) : Decidable s.WF := by
  unfold Store.WF; infer_instance

/-- The index expression `entries[k]` with its `exists` flag. -/
def Store.get (s : Store) (k : String) : Option cacheEntry :=
  match s with
  | [] => none
  | (k', e) :: rest => if k' = k then some e else Store.get rest k

/-- The builtin `delete(entries, k)`. -/
def Store.delete (s : Store) (k : String) : Store :=
  s.filter (fun p => decide (p.1 ≠ k))

/-- The assignment `entries[k] = e`: replaces the entry of a key already
present, adds the key otherwise. -/
def Store.set (s : Store) (k : String) (e : cacheEntry) : Store :=
  match s with
  | [] => [(k, e)]
  | (k', e') :: rest =>
    if k' = k then (k, e) :: rest else (k', e') :: Store.set rest k e

/-- The builtin `len(entries)`. -/
def Store.size (s : Store) : Nat := s.length

/-- The map made by `make(map[string]*cacheEntry)`. -/
def emptyStore : Store := []

/-- The function `getCachedAnalysis`, with `now` the clock read by
`time.Since`.  Returns the pointer returned and the map left behind. -/
def getCachedAnalysis (s : Store) (projectPath : String) (now : Time) :
    Option ProjectAnalysis × Store :=
  match s.get projectPath with
  | none => (none, s)
  | some entry =>
    if timeSub now entry.timestamp > cacheTTL then
      (none, s.delete projectPath)
    else
      (entry.analysis, s.set projectPath { entry with hits := wrapInt (entry.hits + 1) })

/-- The state of the loop of `evictOldestEntry`. -/
structure EvictState where
  oldestPath : String
  oldestTime : Time
  minHits : Int
deriving DecidableEq, Repr

/-- The values of the three variables before the loop of `evictOldestEntry`:
the zero string, the zero time and `-1`. -/
def evictInit : EvictState := { oldestPath := "", oldestTime := 0, minHits := -1 }

/-- One iteration of the loop of `evictOldestEntry`. -/
def evictStep (st : EvictState) (p : String × cacheEntry) : EvictState :=
  if st.minHits = -1 ∨ p.2.hits < st.minHits ∨
      (p.2.hits = st.minHits ∧
        (timeIsZero st.oldestTime = true ∨ timeBefore p.2.timestamp st.oldestTime = true)) then
    { oldestPath := p.1, oldestTime := p.2.timestamp, minHits := p.2.hits }
  else st

/-- The function `evictOldestEntry`. -/
def evictOldestEntry (s : Store) : Store :=
  if s.size = 0 then s
  else
    let st := s.foldl evictStep evictInit
    if st.oldestPath ≠ "" then s.delete st.oldestPath else s

/-- The function `cacheAnalysis`, with `now` the clock read by `time.Now()`. -/
def cacheAnalysis (s : Store) (projectPath : String) (analysis : Option ProjectAnalysis)
    (now : Time) : Store :=
  let s1 := if s.size ≥ maxCacheEntries then evictOldestEntry s else s
  s1.set projectPath { analysis := analysis, timestamp := now, hits := 0 }

/-- The loop of `cleanupExpiredEntries` over the entries still to visit, acting
on the map `s`. -/
def cleanupLoop (now : Time) (s : Store) (todo : List (String × cacheEntry)) : Store :=
  match todo with
  | [] => s
  | (path, entry) :: rest =>
    if timeSub now entry.timestamp > cacheTTL then
      cleanupLoop now (s.delete path) rest
    else
      cleanupLoop now s rest

/-- The function `cleanupExpiredEntries`, with `now` the clock read by
`time.Now()`. -/
def cleanupExpiredEntries (s : Store) (now : Time) : Store :=
  cleanupLoop now s s

/-- A call of `cacheAnalysis`: the key, the analysis and the clock value. -/
structure PutCall where
  projectPath : String
  analysis : Option ProjectAnalysis
  now : Time
deriving DecidableEq, Repr

/-- The map after a sequence of calls of `cacheAnalysis`, made in list order. -/
def putAll (s : Store) (calls : List PutCall) : Store :=
  calls.foldl (fun acc c => cacheAnalysis acc c.projectPath c.analysis c.now) s

/-- The maps that sequences of `cacheAnalysis` calls produce from the empty map.
`Run ok t s`: `s` is the map after some sequence of calls whose keys satisfy
`ok` and whose clock values never decrease, `t` being the last clock value.
Between two calls the iteration order of the map may change in any way. -/
inductive Run (ok : String → Prop) : Time → Store → Prop
  | init (t : Time) : Run ok t emptyStore
  | put (t : Time) (s : Store) (c : PutCall) :
      Run ok t s → ok c.projectPath → t ≤ c.now →
      Run ok c.now (cacheAnalysis s c.projectPath c.analysis c.now)
  | reorder (t : Time) (s s' : Store) : Run ok t s → s.Perm s' → Run ok t s'

/-- Whether the clock values `t`, then those of the list in order, never
decrease. -/
def nonDecreasing : Time → List Time → Bool
  | _, [] => true
  | t, u :: rest => decide (t ≤ u) && nonDecreasing u rest

/-- The 101 calls `cacheAnalysis("", nil)`, `cacheAnalysis("a", nil)`,
`cacheAnalysis("aa", nil)`, ... made at the clock values 1, 2, 3, ... -/
def overflowCalls : List PutCall :=
  (List.range 101).map
    (fun i => { projectPath := String.mk (List.replicate i 'a'), analysis := none, now := i + 1 })

/-- The loop state of `evictOldestEntry` that selects the entry `p`. -/
def pick (p : String × cacheEntry) : EvictState :=
  { oldestPath := p.1, oldestTime := p.2.timestamp, minHits := p.2.hits }

/-- The invariant behind the capacity bound. -/
def CapInv (s : Store) : Prop :=
  s.WF ∧ "" ∉ s.keys ∧ s.size ≤ maxCacheEntries

/-- The argument struct `AnalyzeProjectParams`. -/
structure AnalyzeProjectParams where
  ProjectPath : String
deriving DecidableEq, Repr

/-- What `AnalyzeProject` calls outside this file: `os.Getwd` (its error is
dropped, so only the directory is kept), `filepath.IsAbs`, `filepath.Abs` and
`analyzer.ScanProject`.  An `error` is kept as its message. -/
structure Env where
  Getwd : String
  IsAbs : String → Bool
  Abs : String → Except String String
  ScanProject : String → Except String (Option ProjectAnalysis)

/-- How a call of `AnalyzeProject` ends.  A value returned is kept as the call
that builds it: `responses.FormatError(msg)`, or
`formatAnalysisResult(analysis, fromCache)` on a non-nil `analysis`.  On a nil
`analysis` the first statement of `formatAnalysisResult` reads
`analysis.ProjectPath` through the nil pointer and the call panics instead of
returning: `nilDereference`. -/
inductive Response where
  | FormatError (msg : String)
  | formatAnalysisResult (analysis : ProjectAnalysis) (fromCache : Bool)
  | nilDereference
deriving DecidableEq, Repr

/-- One call of `AnalyzeProject`: how it ends, the map left behind and the
arguments of the calls of `analyzer.ScanProject` made, in order. -/
structure CallResult where
  response : Response
  entries : Store
  scans : List String
deriving DecidableEq, Repr

/-- The function `AnalyzeProject`; `now` is the clock read inside
`getCachedAnalysis` and `now2` the clock read inside `cacheAnalysis`. -/
def AnalyzeProject (env : Env) (s : Store) (params : AnalyzeProjectParams)
    (now now2 : Time) : CallResult :=
  let projectPath := if params.ProjectPath = "" then env.Getwd else params.ProjectPath
  let resolved : Except String String :=
    if env.IsAbs projectPath = false then env.Abs projectPath else Except.ok projectPath
  match resolved with
  | Except.error err =>
    { response := Response.FormatError ("failed to resolve project path: " ++ err),
      entries := s, scans := [] }
  | Except.ok projectPath =>
    match getCachedAnalysis s projectPath now with
    | (some cachedAnalysis, s1) =>
      { response := Response.formatAnalysisResult cachedAnalysis true,
        entries := s1, scans := [] }
    | (none, s1) =>
      match env.ScanProject projectPath with
      | Except.error err =>
        { response := Response.FormatError ("failed to analyze project: " ++ err),
          entries := s1, scans := [projectPath] }
      | Except.ok none =>
        { response := Response.nilDereference,
          entries := cacheAnalysis s1 projectPath none now2, scans := [projectPath] }
      | Except.ok (some analysis) =>
        { response := Response.formatAnalysisResult analysis false,
          entries := cacheAnalysis s1 projectPath (some analysis) now2,
          scans := [projectPath] }

/-- An analysis of a project with no services, dependencies or config files. -/
def sampleAnalysis : ProjectAnalysis :=
  { ProjectPath := "/srv/app",
    Summary := { TotalServices := 0, APIServices := 0, RPCServices := 0, TotalEndpoints := 0,
                 TotalRPCMethods := 0, TotalDependencies := 0, GoZeroVersion := "" },
    Services := [], Dependencies := [], Configs := [] }

/-- An environment in which every path is absolute and every scan fails. -/
def failingEnv : Env :=
  { Getwd := "/", IsAbs := fun _ => true, Abs := fun p => Except.ok p,
    ScanProject := fun _ => Except.error "scan failed" }

/-- The map holding the 100 keys `"a"`, `"aa"`, `"aaa"`, ... written at the clock
values 1, 2, 3, ... and never read. -/
def fullStore : Store :=
  (List.range 100).map
    (fun i => (String.mk (List.replicate (i + 1) 'a'),
      { analysis := none, timestamp := i + 1, hits := 0 }))

/-- Whether the loop of `cleanupExpiredEntries` over `todo` deletes the key `k`:
some entry of `todo` under that key is older than the TTL. -/
def sweptKey (now : Time) (todo : List (String × cacheEntry)) (k : String) : Bool :=
  todo.any (fun q => decide (timeSub now q.2.timestamp > cacheTTL) && decide (q.1 = k))

/-- The map returned by `GetCacheStats`, one field per key. -/
structure CacheStats where
  total_entries : Nat
  total_hits : Int
  oldest_entry : Time
  max_capacity : Nat
deriving DecidableEq, Repr

/-- One iteration of the loop of `GetCacheStats` on the pair
(`totalHits`, `oldestEntry`). -/
def statsStep (st : Int × Time) (p : String × cacheEntry) : Int × Time :=
  (wrapInt (st.1 + p.2.hits),
    if timeBefore p.2.timestamp st.2 = true then p.2.timestamp else st.2)

/-- The function `GetCacheStats`, with `now` the clock read by `time.Now()`.
Returns the statistics and the map left behind. -/
def GetCacheStats (s : Store) (now : Time) : CacheStats × Store :=
  let st := s.foldl statsStep (0, now)
  ({ total_entries := s.size, total_hits := st.1, oldest_entry := st.2,
     max_capacity := maxCacheEntries }, s)

/-- The function `ClearCache`: the map left behind is a new empty map. -/
def ClearCache (_s : Store) : Store := emptyStore

/-- The map `data` built at the end of `formatAnalysisResult`, one field per
key. -/
structure AnalysisData where
  project_path : String
  total_services : Int
  api_services : Int
  rpc_services : Int
  total_endpoints : Int
  total_rpc_methods : Int
  dependencies : Int
  go_zero_version : String
  from_cache : Bool
deriving DecidableEq, Repr

/-- The value of `data` in `formatAnalysisResult(analysis, fromCache)`. -/
def analysisData (analysis : ProjectAnalysis) (fromCache : Bool) : AnalysisData :=
  { project_path := analysis.ProjectPath,
    total_services := analysis.Summary.TotalServices,
    api_services := analysis.Summary.APIServices,
    rpc_services := analysis.Summary.RPCServices,
    total_endpoints := analysis.Summary.TotalEndpoints,
    total_rpc_methods := analysis.Summary.TotalRPCMethods,
    dependencies := analysis.Summary.TotalDependencies,
    go_zero_version := analysis.Summary.GoZeroVersion,
    from_cache := fromCache }

/-- An environment in which every path is absolute and every scan returns
`sampleAnalysis`. -/
def scanningEnv : Env :=
  { Getwd := "/", IsAbs := fun _ => true, Abs := fun p => Except.ok p,
    ScanProject := fun _ => Except.ok (some sampleAnalysis) }

/-- A map of two entries: `"/a"` written at 5 and read three times, `"/b"`
written at 200000000000 and never read. -/
def twoEntries : Store :=
  [("/a", { analysis := some sampleAnalysis, timestamp := 5, hits := 3 }),
   ("/b", { analysis := none, timestamp := 200000000000, hits := 0 })]

/-- A map whose only entry, under `"/a"`, has the largest `int` as its hit
count. -/
def maxHitsStore : Store :=
  [("/a", { analysis := some sampleAnalysis, timestamp := 5, hits := 9223372036854775807 })]

/-- A map of two entries whose hit counts are the largest `int` and 1. -/
def wrapSumStore : Store :=
  [("/a", { analysis := some sampleAnalysis, timestamp := 5, hits := 9223372036854775807 }),
   ("/b", { analysis := some sampleAnalysis, timestamp := 7, hits := 1 })]

/-- A map whose only entry, under `"/srv/app"`, holds a nil analysis. -/
def nilEntryStore : Store :=
  [("/srv/app", { analysis := none, timestamp := 10, hits := 0 })]

/-! ## The message of `formatAnalysisResult`

The message is kept as the list of the strings passed to
`message.WriteString`, in order; `message.String()` is their concatenation.
The verbs `%s` and `%d` of `fmt.Sprintf` insert the string and the decimal
numeral.  `strings.ToUpper` and `filepath.Rel` (its error is dropped) are
parameters. -/

/-- The writes of the summary section, from the first line of the message to the
empty line that ends the summary. -/
def summaryWrites (analysis : ProjectAnalysis) (fromCache : Bool) : List String :=
  ["Project Analysis: " ++ analysis.ProjectPath ++ "\n\n"] ++
  (if fromCache = true then ["(Results from cache)\n\n"] else []) ++
  ["=== Summary ===\n",
   "Total Services: " ++ toString analysis.Summary.TotalServices ++ "\n",
   "  - API Services: " ++ toString analysis.Summary.APIServices ++ "\n",
   "  - RPC Services: " ++ toString analysis.Summary.RPCServices ++ "\n",
   "Total Endpoints: " ++ toString analysis.Summary.TotalEndpoints ++ "\n",
   "Total RPC Methods: " ++ toString analysis.Summary.TotalRPCMethods ++ "\n",
   "Dependencies: " ++ toString analysis.Summary.TotalDependencies ++ "\n"] ++
  (if analysis.Summary.GoZeroVersion ≠ "" then
    ["Go-Zero Version: " ++ analysis.Summary.GoZeroVersion ++ "\n"] else []) ++
  ["\n"]

/-- The writes of one iteration of the loop over `analysis.Services`, `i` being
the index of the service. -/
def serviceWrites (ToUpper : String → String) (i : Nat) (service : Service) : List String :=
  ["\n" ++ toString (i + 1) ++ ". " ++ service.Name ++ " (" ++ service.Type_ ++ ")\n",
   "   Path: " ++ service.Path ++ "\n",
   "   Spec: " ++ service.SpecFile ++ "\n"] ++
  (if service.Type_ = "api" ∧ service.Endpoints.length > 0 then
    ["   Endpoints:\n"] ++
    service.Endpoints.map (fun endpoint =>
      "     - " ++ ToUpper endpoint.Method ++ " " ++ endpoint.Path ++
        " (" ++ endpoint.Handler ++ ")\n")
   else []) ++
  (if service.Type_ = "rpc" ∧ service.RPCMethods.length > 0 then
    ["   RPC Methods:\n"] ++
    service.RPCMethods.map (fun method =>
      "     - " ++ method.Name ++ "(" ++ method.Request ++ ") returns " ++ method.Response ++
        (if method.Stream = true then " [stream]" else "") ++ "\n")
   else [])

/-- The loop over `analysis.Services`, from the index `i` on. -/
def servicesLoop (ToUpper : String → String) : Nat → List Service → List String
  | _, [] => []
  | i, service :: rest => serviceWrites ToUpper i service ++ servicesLoop ToUpper (i + 1) rest

/-- The writes of the services section. -/
def servicesWrites (ToUpper : String → String) (analysis : ProjectAnalysis) : List String :=
  if analysis.Services.length > 0 then
    ["=== Services ===\n"] ++ servicesLoop ToUpper 0 analysis.Services ++ ["\n"]
  else []

/-- The line written for a dependency that is listed. -/
def dependencyLine (dep : Dependency) : String :=
  "  - " ++ dep.Name ++ " " ++ dep.Version ++ "\n"

/-- One iteration of the loop over `analysis.Dependencies`, on the pair of the
counter `directDeps` and the strings written so far by the loop. -/
def dependencyStep (st : Nat × List String) (dep : Dependency) : Nat × List String :=
  if dep.Type_ = "direct" then
    if st.1 + 1 ≤ 10 then (st.1 + 1, st.2 ++ [dependencyLine dep])
    else (st.1 + 1, st.2)
  else st

/-- The writes of the dependencies section. -/
def dependenciesWrites (analysis : ProjectAnalysis) : List String :=
  if analysis.Dependencies.length > 0 then
    let st := analysis.Dependencies.foldl dependencyStep (0, [])
    ["=== Key Dependencies ===\n"] ++ st.2 ++
    (if st.1 > 10 then
      ["  ... and " ++ toString (st.1 - 10) ++ " more direct dependencies\n"] else []) ++
    ["\n"]
  else []

/-- The writes of the configuration files section. -/
def configsWrites (Rel : String → String → String) (analysis : ProjectAnalysis) :
    List String :=
  if analysis.Configs.length > 0 then
    ["=== Configuration Files ===\n"] ++
    analysis.Configs.map (fun config =>
      "  - " ++ Rel analysis.ProjectPath config.Path ++ " (" ++ config.Type_ ++ ")\n") ++
    ["\n"]
  else []

/-- The writes of the closing section. -/
def nextStepsWrites : List String :=
  ["=== Next Steps ===\n",
   "  - Use generate_api_from_spec to update API services\n",
   "  - Use create_rpc_service to add new RPC services\n",
   "  - Use generate_model to add database models\n"]

/-- The strings that `formatAnalysisResult(analysis, fromCache)` writes into
`message`, in order. -/
def messageWrites (ToUpper : String → String) (Rel : String → String → String)
    (analysis : ProjectAnalysis) (fromCache : Bool) : List String :=
  summaryWrites analysis fromCache ++ servicesWrites ToUpper analysis ++
    dependenciesWrites analysis ++ configsWrites Rel analysis ++ nextStepsWrites

/-- The direct dependencies of a list, in list order. -/
def directOnly (deps : List Dependency) : List Dependency :=
  deps.filter (fun dep => decide (dep.Type_ = "direct"))

/-- An analysis with twelve direct dependencies `d1` ... `d12` and, between them,
two indirect ones. -/
def manyDepsAnalysis : ProjectAnalysis :=
  { sampleAnalysis with
    Dependencies :=
      [{ Name := "d1", Version := "v1", Type_ := "direct" },
       { Name := "x1", Version := "v0", Type_ := "indirect" },
       { Name := "d2", Version := "v1", Type_ := "direct" },
       { Name := "d3", Version := "v1", Type_ := "direct" },
       { Name := "d4", Version := "v1", Type_ := "direct" },
       { Name := "d5", Version := "v1", Type_ := "direct" },
       { Name := "d6", Version := "v1", Type_ := "direct" },
       { Name := "d7", Version := "v1", Type_ := "direct" },
       { Name := "x2", Version := "v0", Type_ := "indirect" },
       { Name := "d8", Version := "v1", Type_ := "direct" },
       { Name := "d9", Version := "v1", Type_ := "direct" },
       { Name := "d10", Version := "v1", Type_ := "direct" },
       { Name := "d11", Version := "v1", Type_ := "direct" },
       { Name := "d12", Version := "v1", Type_ := "direct" }] }

/-! ## Facts about time -/

theorem cacheTTL_eq : cacheTTL = 300000000000 := by
  norm_num [cacheTTL, Minute]

/-- Saturation of the difference does not change its comparison with the TTL. -/
theorem timeSub_gt_iff (t u : Time) : timeSub t u > cacheTTL ↔ t - u > cacheTTL := by
  have h1 : minDuration = -9223372036854775808 := by norm_num [minDuration]
  have h2 : maxDuration = 9223372036854775807 := by norm_num [maxDuration]
  have key : ∀ a : Int,
      (if a < -9223372036854775808 then (-9223372036854775808 : Int)
        else if 9223372036854775807 < a then 9223372036854775807 else a) > 300000000000
      ↔ a > 300000000000 := by
    intro a
    split_ifs <;> omega
  unfold timeSub
  rw [h1, h2, cacheTTL_eq]
  exact key (t - u)

/-! ## Facts about machine integers -/

theorem minInt_eq : minInt = -9223372036854775808 := by
  norm_num [minInt]

theorem maxInt_eq : maxInt = 9223372036854775807 := by
  norm_num [maxInt]

theorem wrapInt_eq (x : Int) :
    wrapInt x = (x + 9223372036854775808) % 18446744073709551616 - 9223372036854775808 := by
  unfold wrapInt
  norm_num

/-- A result inside the range of `int` is not changed by the wrap. -/
theorem wrapInt_of_range (x : Int) (hlo : minInt ≤ x) (hhi : x ≤ maxInt) : wrapInt x = x := by
  rw [minInt_eq] at hlo
  rw [maxInt_eq] at hhi
  rw [wrapInt_eq]
  omega

/-- Wrapping after each addition gives the wrap of the exact sum. -/
theorem wrapInt_add (a b : Int) : wrapInt (wrapInt a + b) = wrapInt (a + b) := by
  simp only [wrapInt_eq]
  omega

theorem wrapInt_idem (a : Int) : wrapInt (wrapInt a) = wrapInt a := by
  simp only [wrapInt_eq]
  omega

/-! ## Facts about the map operations -/

theorem Store.get_nil (k : String) : Store.get [] k = none := rfl

theorem Store.get_cons (k' : String) (e : cacheEntry) (rest : Store) (k : String) :
    Store.get ((k', e) :: rest) k = if k' = k then some e else Store.get rest k := rfl

theorem Store.get_eq_none_iff (s : Store) (k : String) :
    s.get k = none ↔ k ∉ s.keys := by
  induction s with
  | nil => simp [Store.keys, Store.get_nil]
  | cons p rest ih =>
    obtain ⟨k', e⟩ := p
    rw [Store.get_cons]
    by_cases h : k' = k
    · simp [h, Store.keys]
    · have h' : ¬ k = k' := fun h2 => h h2.symm
      simp only [h, if_false, ih, Store.keys, List.map_cons, List.mem_cons, h', false_or]

theorem Store.mem_of_get (s : Store) (k : String) (e : cacheEntry) (h : s.get k = some e) :
    (k, e) ∈ s := by
  induction s with
  | nil => simp [Store.get_nil] at h
  | cons p rest ih =>
    obtain ⟨k', e'⟩ := p
    rw [Store.get_cons] at h
    by_cases hk : k' = k
    · simp only [hk, if_true, Option.some.injEq] at h
      simp [hk, h]
    · simp only [hk, if_false] at h
      exact List.mem_cons_of_mem _ (ih h)

theorem Store.mem_keys_of_mem (s : Store) (p : String × cacheEntry) (h : p ∈ s) :
    p.1 ∈ s.keys :=
  List.mem_map_of_mem Prod.fst h

theorem Store.WF_cons (k : String) (e : cacheEntry) (rest : Store) :
    Store.WF ((k, e) :: rest) ↔ k ∉ Store.keys rest ∧ Store.WF rest := by
  simp [Store.WF, Store.keys]

theorem Store.get_of_mem (s : Store) (hwf : s.WF) (k : String) (e : cacheEntry)
    (h : (k, e) ∈ s) : s.get k = some e := by
  induction s with
  | nil => simp at h
  | cons p rest ih =>
    obtain ⟨k', e'⟩ := p
    rw [Store.WF_cons] at hwf
    rw [Store.get_cons]
    rcases List.mem_cons.mp h with h1 | h1
    · injection h1 with hk he
      simp [hk, he]
    · have hk : k' ≠ k := by
        intro hk
        exact hwf.1 (hk ▸ Store.mem_keys_of_mem rest (k, e) h1)
      simp only [hk, if_false]
      exact ih hwf.2 h1

theorem Store.get_delete (s : Store) (k k' : String) :
    (s.delete k).get k' = if k' = k then none else s.get k' := by
  induction s with
  | nil => simp [Store.delete, Store.get_nil]
  | cons p rest ih =>
    obtain ⟨k0, e0⟩ := p
    have hd : Store.delete ((k0, e0) :: rest) k =
        if k0 = k then Store.delete rest k else (k0, e0) :: Store.delete rest k := by
      by_cases h : k0 = k <;> simp [Store.delete, List.filter_cons, h]
    rw [hd]
    by_cases h : k0 = k
    · simp only [h, if_true, ih, Store.get_cons]
      by_cases h2 : k' = k
      · simp [h2]
      · have h3 : ¬ k = k' := fun h4 => h2 h4.symm
        simp [h2, h3]
    · simp only [h, if_false, Store.get_cons, ih]
      by_cases h2 : k0 = k'
      · have h3 : ¬ k' = k := fun h4 => h (h2.trans h4)
        simp [h2, h3]
      · simp [h2]

theorem Store.get_set (s : Store) (k : String) (e : cacheEntry) (k' : String) :
    (s.set k e).get k' = if k' = k then some e else s.get k' := by
  induction s with
  | nil =>
    by_cases h : k' = k
    · simp [Store.set, Store.get_cons, h]
    · have h3 : ¬ k = k' := fun h4 => h h4.symm
      simp [Store.set, Store.get_cons, h, h3]
  | cons p rest ih =>
    obtain ⟨k0, e0⟩ := p
    by_cases h : k0 = k
    · have hs : Store.set ((k0, e0) :: rest) k e = (k, e) :: rest := by simp [Store.set, h]
      rw [hs, Store.get_cons, Store.get_cons]
      by_cases h2 : k' = k
      · simp [h2]
      · have h3 : ¬ k = k' := fun h4 => h2 h4.symm
        have h5 : ¬ k0 = k' := fun h4 => h3 (h ▸ h4)
        simp [h2, h3, h5]
    · have hs : Store.set ((k0, e0) :: rest) k e = (k0, e0) :: Store.set rest k e := by
        simp [Store.set, h]
      rw [hs, Store.get_cons, Store.get_cons, ih]
      by_cases h2 : k0 = k'
      · have h3 : ¬ k' = k := fun h4 => h (h2.trans h4)
        simp [h2, h3]
      · simp [h2]

theorem Store.keys_delete (s : Store) (k : String) :
    (s.delete k).keys = s.keys.filter (fun x => decide (x ≠ k)) := by
  simp only [Store.delete, Store.keys, List.filter_map]
  rfl

theorem Store.WF_delete (s : Store) (k : String) (hwf : s.WF) : (s.delete k).WF := by
  unfold Store.WF at *
  rw [Store.keys_delete]
  exact hwf.filter _

theorem Store.size_delete (s : Store) (k : String) (hwf : s.WF) (hk : k ∈ s.keys) :
    (s.delete k).size + 1 = s.size := by
  induction s with
  | nil => simp [Store.keys] at hk
  | cons p rest ih =>
    obtain ⟨k0, e0⟩ := p
    rw [Store.WF_cons] at hwf
    by_cases h : k0 = k
    · subst h
      have hrest : Store.delete rest k0 = rest := by
        unfold Store.delete
        rw [List.filter_eq_self]
        intro p hp
        have : p.1 ≠ k0 := fun h2 => hwf.1 (h2 ▸ Store.mem_keys_of_mem rest p hp)
        simpa using this
      have hd : Store.delete ((k0, e0) :: rest) k0 = Store.delete rest k0 := by
        simp [Store.delete, List.filter_cons]
      rw [hd, hrest]
      simp [Store.size]
    · have hk' : k ∈ Store.keys rest := by
        simp only [Store.keys, List.map_cons, List.mem_cons] at hk
        rcases hk with hk | hk
        · exact absurd hk.symm h
        · exact hk
      have hd : Store.delete ((k0, e0) :: rest) k = (k0, e0) :: Store.delete rest k := by
        simp [Store.delete, List.filter_cons, h]
      rw [hd]
      have := ih hwf.2 hk'
      simp only [Store.size, List.length_cons] at this ⊢
      omega

theorem Store.size_delete_le (s : Store) (k : String) : (s.delete k).size ≤ s.size :=
  List.length_filter_le _ _

theorem Store.keys_set (s : Store) (k : String) (e : cacheEntry) :
    (s.set k e).keys = if k ∈ s.keys then s.keys else s.keys ++ [k] := by
  induction s with
  | nil => simp [Store.set, Store.keys]
  | cons p rest ih =>
    obtain ⟨k0, e0⟩ := p
    by_cases h : k0 = k
    · simp [Store.set, Store.keys, h]
    · have h3 : ¬ k = k0 := fun h4 => h h4.symm
      have hs : Store.set ((k0, e0) :: rest) k e = (k0, e0) :: Store.set rest k e := by
        simp [Store.set, h]
      rw [hs]
      simp only [Store.keys, List.map_cons, List.mem_cons, h3, false_or] at ih ⊢
      rw [ih]
      split_ifs <;> simp

theorem Store.WF_set (s : Store) (k : String) (e : cacheEntry) (hwf : s.WF) :
    (s.set k e).WF := by
  unfold Store.WF at *
  rw [Store.keys_set]
  split_ifs with h
  · exact hwf
  · rw [List.nodup_append]
    refine ⟨hwf, List.nodup_singleton k, ?_⟩
    intro a ha hb
    simp only [List.mem_singleton] at hb
    exact h (hb ▸ ha)

theorem Store.size_eq_keys_length (s : Store) : s.size = s.keys.length := by
  simp [Store.size, Store.keys]

theorem Store.size_set_le (s : Store) (k : String) (e : cacheEntry) :
    (s.set k e).size ≤ s.size + 1 := by
  rw [Store.size_eq_keys_length, Store.size_eq_keys_length, Store.keys_set]
  split_ifs <;> simp

theorem Store.size_set_of_mem (s : Store) (k : String) (e : cacheEntry) (h : k ∈ s.keys) :
    (s.set k e).size = s.size := by
  rw [Store.size_eq_keys_length, Store.size_eq_keys_length, Store.keys_set, if_pos h]

/-! ## Facts about eviction -/

theorem evictStep_eq (st : EvictState) (p : String × cacheEntry) :
    evictStep st p = st ∨ evictStep st p = pick p := by
  unfold evictStep pick
  split_ifs
  · exact Or.inr rfl
  · exact Or.inl rfl

theorem evictStep_init (p : String × cacheEntry) : evictStep evictInit p = pick p := by
  simp [evictStep, evictInit, pick]

theorem evictFold_eq (l : List (String × cacheEntry)) (st : EvictState) :
    l.foldl evictStep st = st ∨ ∃ p ∈ l, l.foldl evictStep st = pick p := by
  induction l generalizing st with
  | nil => exact Or.inl rfl
  | cons q rest ih =>
    rw [List.foldl_cons]
    rcases ih (evictStep st q) with h | ⟨p, hp, h⟩
    · rcases evictStep_eq st q with h2 | h2
      · exact Or.inl (h.trans h2)
      · exact Or.inr ⟨q, List.mem_cons_self _ _, h.trans h2⟩
    · exact Or.inr ⟨p, List.mem_cons_of_mem _ hp, h⟩

/-- On a non-empty map the loop ends with the variables describing one of the
entries of the map. -/
theorem evictFold_picks (s : Store) (hne : s ≠ []) :
    ∃ p ∈ s, s.foldl evictStep evictInit = pick p := by
  cases s with
  | nil => exact absurd rfl hne
  | cons q rest =>
    rw [List.foldl_cons, evictStep_init]
    rcases evictFold_eq rest (pick q) with h | ⟨p, hp, h⟩
    · exact ⟨q, List.mem_cons_self _ _, h⟩
    · exact ⟨p, List.mem_cons_of_mem _ hp, h⟩

theorem evictOldestEntry_nil : evictOldestEntry [] = [] := rfl

/-- What `evictOldestEntry` does to a non-empty map: it deletes the key of one
of the entries, unless that key is the empty string. -/
theorem evictOldestEntry_eq (s : Store) (hne : s ≠ []) :
    ∃ p ∈ s, s.foldl evictStep evictInit = pick p ∧
      evictOldestEntry s = if p.1 ≠ "" then s.delete p.1 else s := by
  obtain ⟨p, hp, h⟩ := evictFold_picks s hne
  refine ⟨p, hp, h, ?_⟩
  have hsz : ¬ s.size = 0 := by
    cases s with
    | nil => exact absurd rfl hne
    | cons q rest => simp [Store.size]
  unfold evictOldestEntry
  rw [if_neg hsz]
  simp only [h, pick]

theorem evictOldestEntry_WF (s : Store) (hwf : s.WF) : (evictOldestEntry s).WF := by
  by_cases hne : s = []
  · subst hne; exact hwf
  · obtain ⟨p, _, _, h⟩ := evictOldestEntry_eq s hne
    rw [h]
    split_ifs
    · exact Store.WF_delete s p.1 hwf
    · exact hwf

theorem evictOldestEntry_keys_subset (s : Store) (k : String)
    (h : k ∈ (evictOldestEntry s).keys) : k ∈ s.keys := by
  by_cases hne : s = []
  · subst hne; exact h
  · obtain ⟨p, _, _, he⟩ := evictOldestEntry_eq s hne
    rw [he] at h
    split_ifs at h
    · rw [Store.keys_delete] at h
      exact (List.mem_filter.mp h).1
    · exact h

theorem evictOldestEntry_size (s : Store) (hwf : s.WF) (hne : s ≠ [])
    (hkeys : "" ∉ s.keys) : (evictOldestEntry s).size + 1 = s.size := by
  obtain ⟨p, hp, _, he⟩ := evictOldestEntry_eq s hne
  have hpk : p.1 ∈ s.keys := Store.mem_keys_of_mem s p hp
  have hp1 : p.1 ≠ "" := fun h => hkeys (h ▸ hpk)
  rw [he, if_pos hp1]
  exact Store.size_delete s p.1 hwf hpk

/-! ## The capacity bound -/

theorem CapInv_cacheAnalysis (s : Store) (k : String) (a : Option ProjectAnalysis)
    (now : Time) (hk : k ≠ "") (h : CapInv s) : CapInv (cacheAnalysis s k a now) := by
  obtain ⟨hwf, hkeys, hsz⟩ := h
  unfold cacheAnalysis
  by_cases hfull : s.size ≥ maxCacheEntries
  · simp only [hfull, if_true]
    have hne : s ≠ [] := by
      intro h0
      subst h0
      simp [Store.size, maxCacheEntries] at hfull
    have h1 := evictOldestEntry_size s hwf hne hkeys
    refine ⟨Store.WF_set _ _ _ (evictOldestEntry_WF s hwf), ?_, ?_⟩
    · rw [Store.keys_set]
      split_ifs
      · exact fun h => hkeys (evictOldestEntry_keys_subset s _ h)
      · intro h
        rcases List.mem_append.mp h with h | h
        · exact hkeys (evictOldestEntry_keys_subset s _ h)
        · exact hk (List.mem_singleton.mp h).symm
    · have h2 := Store.size_set_le (evictOldestEntry s) k
        { analysis := a, timestamp := now, hits := 0 }
      omega
  · simp only [hfull, if_false]
    refine ⟨Store.WF_set _ _ _ hwf, ?_, ?_⟩
    · rw [Store.keys_set]
      split_ifs
      · exact hkeys
      · intro h
        rcases List.mem_append.mp h with h | h
        · exact hkeys h
        · exact hk (List.mem_singleton.mp h).symm
    · have h2 := Store.size_set_le s k { analysis := a, timestamp := now, hits := 0 }
      omega

theorem CapInv_perm (s s' : Store) (hp : s.Perm s') (h : CapInv s) : CapInv s' := by
  obtain ⟨hwf, hkeys, hsz⟩ := h
  have hk : s.keys.Perm s'.keys := hp.map Prod.fst
  refine ⟨hk.nodup_iff.mp hwf, fun h => hkeys (hk.mem_iff.mpr h), ?_⟩
  rw [Store.size, ← hp.length_eq]
  exact hsz

theorem Run_putAll (ok : String → Prop) (calls : List PutCall) :
    ∀ (t : Time) (s : Store), Run ok t s →
      (∀ c ∈ calls, ok c.projectPath) →
      nonDecreasing t (calls.map PutCall.now) = true →
      ∃ t2, Run ok t2 (putAll s calls) := by
  induction calls with
  | nil => intro t s h _ _; exact ⟨t, h⟩
  | cons c rest ih =>
    intro t s h hok hch
    simp only [List.map_cons, nonDecreasing, Bool.and_eq_true, decide_eq_true_eq] at hch
    have h1 := Run.put t s c h (hok c (List.mem_cons_self _ _)) hch.1
    exact ih c.now _ h1 (fun c2 hc2 => hok c2 (List.mem_cons_of_mem _ hc2)) hch.2

/-- With non-negative hit counts and non-zero timestamps, the loop keeps the
least pair (hit count, timestamp) seen so far. -/
theorem evictFold_min (l : List (String × cacheEntry)) :
    ∀ st : EvictState, 0 ≤ st.minHits → st.oldestTime ≠ 0 →
      (∀ p ∈ l, 0 ≤ p.2.hits ∧ p.2.timestamp ≠ 0) →
      (0 ≤ (l.foldl evictStep st).minHits ∧ (l.foldl evictStep st).oldestTime ≠ 0) ∧
      ((l.foldl evictStep st).minHits < st.minHits ∨
        ((l.foldl evictStep st).minHits = st.minHits ∧
          (l.foldl evictStep st).oldestTime ≤ st.oldestTime)) ∧
      ∀ p ∈ l, (l.foldl evictStep st).minHits < p.2.hits ∨
        ((l.foldl evictStep st).minHits = p.2.hits ∧
          (l.foldl evictStep st).oldestTime ≤ p.2.timestamp) := by
  induction l with
  | nil =>
    intro st h0 h1 _
    refine ⟨⟨h0, h1⟩, Or.inr ⟨rfl, le_refl _⟩, ?_⟩
    intro p hp
    simp at hp
  | cons q rest ih =>
    intro st h0 h1 hall
    have hq := hall q (List.mem_cons_self _ _)
    have hrest : ∀ p ∈ rest, 0 ≤ p.2.hits ∧ p.2.timestamp ≠ 0 :=
      fun p hp => hall p (List.mem_cons_of_mem _ hp)
    rw [List.foldl_cons]
    have hz : timeIsZero st.oldestTime = false := by simp [timeIsZero, h1]
    have hm : st.minHits ≠ -1 := by omega
    by_cases hc : q.2.hits < st.minHits ∨
        (q.2.hits = st.minHits ∧ q.2.timestamp < st.oldestTime)
    · have hstep : evictStep st q = pick q := by
        unfold evictStep pick
        rw [if_pos]
        rcases hc with hc | hc
        · exact Or.inr (Or.inl hc)
        · exact Or.inr (Or.inr ⟨hc.1, Or.inr (by simp [timeBefore, hc.2])⟩)
      rw [hstep]
      obtain ⟨hv, hle, hmin⟩ := ih (pick q) hq.1 hq.2 hrest
      have e1 : (pick q).minHits = q.2.hits := rfl
      have e2 : (pick q).oldestTime = q.2.timestamp := rfl
      rw [e1, e2] at hle
      refine ⟨hv, ?_, ?_⟩
      · unfold Time at *
        omega
      · intro p hp
        rcases List.mem_cons.mp hp with hp | hp
        · subst hp
          exact hle
        · exact hmin p hp
    · have hstep : evictStep st q = st := by
        unfold evictStep
        rw [if_neg]
        rintro (h | h | ⟨h, h2 | h2⟩)
        · exact hm h
        · exact hc (Or.inl h)
        · rw [hz] at h2
          exact Bool.noConfusion h2
        · exact hc (Or.inr ⟨h, by simpa [timeBefore] using h2⟩)
      rw [hstep]
      obtain ⟨hv, hle, hmin⟩ := ih st h0 h1 hrest
      refine ⟨hv, hle, ?_⟩
      intro p hp
      rcases List.mem_cons.mp hp with hp | hp
      · subst hp
        unfold Time at *
        omega
      · exact hmin p hp

/-- On a non-empty map with non-negative hit counts and non-zero timestamps the
entry selected by the loop has the least pair (hit count, timestamp). -/
theorem evictFold_picks_min (s : Store) (hne : s ≠ [])
    (hall : ∀ p ∈ s, 0 ≤ p.2.hits ∧ p.2.timestamp ≠ 0) :
    ∃ p0 ∈ s, s.foldl evictStep evictInit = pick p0 ∧
      ∀ p ∈ s, p0.2.hits < p.2.hits ∨
        (p0.2.hits = p.2.hits ∧ p0.2.timestamp ≤ p.2.timestamp) := by
  obtain ⟨p0, hp0, hfold⟩ := evictFold_picks s hne
  refine ⟨p0, hp0, hfold, ?_⟩
  cases s with
  | nil => exact absurd rfl hne
  | cons q rest =>
    rw [List.foldl_cons, evictStep_init] at hfold
    have hq := hall q (List.mem_cons_self _ _)
    obtain ⟨_, hle, hmin⟩ := evictFold_min rest (pick q) hq.1 hq.2
      (fun p hp => hall p (List.mem_cons_of_mem _ hp))
    rw [hfold] at hle hmin
    have e1 : (pick p0).minHits = p0.2.hits := rfl
    have e2 : (pick p0).oldestTime = p0.2.timestamp := rfl
    have e3 : (pick q).minHits = q.2.hits := rfl
    have e4 : (pick q).oldestTime = q.2.timestamp := rfl
    rw [e1, e2, e3, e4] at hle
    simp only [e1, e2] at hmin
    intro p hp
    rcases List.mem_cons.mp hp with hp | hp
    · subst hp
      exact hle
    · exact hmin p hp

theorem Store.eq_of_mem_of_key_eq (s : Store) (hwf : s.WF) (p q : String × cacheEntry)
    (hp : p ∈ s) (hq : q ∈ s) (hk : p.1 = q.1) : p = q := by
  have h1 := Store.get_of_mem s hwf p.1 p.2 hp
  have h2 := Store.get_of_mem s hwf q.1 q.2 hq
  rw [hk] at h1
  have h3 : p.2 = q.2 := Option.some.inj (h1.symm.trans h2)
  exact Prod.ext hk h3

/-! ## Facts about the sweep -/

theorem cleanupLoop_eq (now : Time) (todo : List (String × cacheEntry)) :
    ∀ acc : Store, cleanupLoop now acc todo =
      acc.filter (fun p => !sweptKey now todo p.1) := by
  induction todo with
  | nil =>
    intro acc
    simp [cleanupLoop, sweptKey]
  | cons q rest ih =>
    intro acc
    obtain ⟨path, entry⟩ := q
    unfold cleanupLoop
    by_cases hexp : timeSub now entry.timestamp > cacheTTL
    · rw [if_pos hexp, ih, Store.delete, List.filter_filter]
      apply List.filter_congr
      intro p _
      by_cases hk : path = p.1
      · simp [sweptKey, hexp, hk]
      · have hk2 : ¬ p.1 = path := fun h => hk h.symm
        simp [sweptKey, hexp, hk, hk2]
    · rw [if_neg hexp, ih]
      apply List.filter_congr
      intro p _
      simp [sweptKey, hexp]

/-! ## The capacity bound (claim C1) -/

/-- Claim C1 as stated fails: with arbitrary string keys the bound is broken.
After the 101 calls of `overflowCalls` (the first key is the empty string, the
clock values increase) the map holds 101 entries, more than `maxCacheEntries`:
at the last call the loop of `evictOldestEntry` selects the entry of the empty
key, and the test `oldestPath != ""` then skips the deletion. -/
theorem capacity_bound_fails_with_empty_key :
    nonDecreasing 0 (overflowCalls.map PutCall.now) = true ∧
      (∃ t, Run (fun _ => True) t (putAll emptyStore overflowCalls)) ∧
      (putAll emptyStore overflowCalls).size = 101 ∧
      ¬ (putAll emptyStore overflowCalls).size ≤ maxCacheEntries := by
  have hclock : nonDecreasing 0 (overflowCalls.map PutCall.now) = true := by decide
  have hsize : (putAll emptyStore overflowCalls).size = 101 := by decide
  refine ⟨hclock, ?_, hsize, ?_⟩
  · exact Run_putAll (fun _ => True) overflowCalls 0 emptyStore (Run.init 0)
      (fun _ _ => trivial) hclock
  · rw [hsize]
    decide

/-- Claim C1, amended: starting from the empty map, after every call in any
sequence of `cacheAnalysis` calls whose keys are non-empty strings, with
non-decreasing clock values and whatever the iteration order of the map, the
number of entries is at most `maxCacheEntries`. -/
theorem capacity_bound (t : Time) (s : Store) (h : Run (fun k => k ≠ "") t s) :
    s.size ≤ maxCacheEntries := by
  have hinv : CapInv s := by
    induction h with
    | init t => exact ⟨List.nodup_nil, by simp [emptyStore, Store.keys], Nat.zero_le _⟩
    | put t s c _ hok _ ih => exact CapInv_cacheAnalysis s _ _ _ hok ih
    | reorder t s s2 _ hp ih => exact CapInv_perm s s2 hp ih
  exact hinv.2.2

/-- The bound of `capacity_bound` at the map left by one call of `cacheAnalysis`
on the empty map. -/
theorem capacity_bound_witness :
    (cacheAnalysis emptyStore "/srv/app" none 5).size ≤ maxCacheEntries :=
  capacity_bound 5 _
    (Run.put 0 emptyStore { projectPath := "/srv/app", analysis := none, now := 5 }
      (Run.init 0) (by decide) (by decide))

/-! ## Expiry on read (claim C2) -/

theorem getCachedAnalysis_absent (s : Store) (k : String) (now : Time)
    (h : s.get k = none) : getCachedAnalysis s k now = (none, s) := by
  unfold getCachedAnalysis
  rw [h]

theorem getCachedAnalysis_expired (s : Store) (k : String) (now : Time) (e : cacheEntry)
    (h : s.get k = some e) (hexp : now - e.timestamp > cacheTTL) :
    getCachedAnalysis s k now = (none, s.delete k) := by
  unfold getCachedAnalysis
  rw [h]
  simp only
  rw [if_pos ((timeSub_gt_iff now e.timestamp).mpr hexp)]

theorem getCachedAnalysis_fresh (s : Store) (k : String) (now : Time) (e : cacheEntry)
    (h : s.get k = some e) (hfresh : now - e.timestamp ≤ cacheTTL) :
    getCachedAnalysis s k now =
      (e.analysis, s.set k { e with hits := wrapInt (e.hits + 1) }) := by
  unfold getCachedAnalysis
  rw [h]
  simp only
  rw [if_neg]
  intro hgt
  exact absurd ((timeSub_gt_iff now e.timestamp).mp hgt) (not_lt.mpr hfresh)

/-- Claim C2: `getCachedAnalysis` returns the stored analysis when the key has
an entry with `now - createdAt <= cacheTTL`, and returns nil when the key is
absent or its entry has `now - createdAt > cacheTTL`. -/
theorem getCachedAnalysis_ttl (s : Store) (k : String) (now : Time) :
    (∀ e, s.get k = some e → now - e.timestamp ≤ cacheTTL →
        (getCachedAnalysis s k now).1 = e.analysis) ∧
      (s.get k = none → (getCachedAnalysis s k now).1 = none) ∧
      (∀ e, s.get k = some e → now - e.timestamp > cacheTTL →
        (getCachedAnalysis s k now).1 = none) := by
  refine ⟨?_, ?_, ?_⟩
  · intro e h hfresh
    rw [getCachedAnalysis_fresh s k now e h hfresh]
  · intro h
    rw [getCachedAnalysis_absent s k now h]
  · intro e h hexp
    rw [getCachedAnalysis_expired s k now e h hexp]

/-- The three cases of `getCachedAnalysis_ttl` on a map of one entry written
at the clock value 5: read at 100 (a hit), read under another key (a miss) and
read once the entry is older than the TTL (a miss). -/
theorem getCachedAnalysis_ttl_witness :
    (getCachedAnalysis
        [("/a", { analysis := some sampleAnalysis, timestamp := 5, hits := 0 })] "/a" 100).1
        = some sampleAnalysis ∧
      (getCachedAnalysis
        [("/a", { analysis := some sampleAnalysis, timestamp := 5, hits := 0 })] "/b" 100).1
        = none ∧
      (getCachedAnalysis
        [("/a", { analysis := some sampleAnalysis, timestamp := 5, hits := 0 })]
        "/a" 400000000000).1 = none :=
  ⟨(getCachedAnalysis_ttl
      [("/a", { analysis := some sampleAnalysis, timestamp := 5, hits := 0 })] "/a" 100).1
      { analysis := some sampleAnalysis, timestamp := 5, hits := 0 } (by decide) (by decide),
   (getCachedAnalysis_ttl
      [("/a", { analysis := some sampleAnalysis, timestamp := 5, hits := 0 })] "/b" 100).2.1
      (by decide),
   (getCachedAnalysis_ttl
      [("/a", { analysis := some sampleAnalysis, timestamp := 5, hits := 0 })]
      "/a" 400000000000).2.2
      { analysis := some sampleAnalysis, timestamp := 5, hits := 0 } (by decide) (by decide)⟩

/-! ## Put then get (claim C4) -/

/-- Claim C4: after `cacheAnalysis(K, R)` at time `t`, a `getCachedAnalysis(K)`
at a time `t2` with `t2 - t <= cacheTTL` and no write in between returns
exactly `R`, whether or not the put evicted an entry. -/
theorem put_then_get (s : Store) (K : String) (R : Option ProjectAnalysis) (t t2 : Time)
    (hfresh : t2 - t ≤ cacheTTL) :
    (getCachedAnalysis (cacheAnalysis s K R t) K t2).1 = R := by
  have hget : (cacheAnalysis s K R t).get K =
      some { analysis := R, timestamp := t, hits := 0 } := by
    unfold cacheAnalysis
    simp only
    rw [Store.get_set, if_pos rfl]
  rw [getCachedAnalysis_fresh _ K t2 _ hget hfresh]

/-- The round trip of `put_then_get` on a map at capacity, where the put evicts
an entry, read 1000 nanoseconds after the write. -/
theorem put_then_get_witness :
    (1200 : Time) - 200 ≤ cacheTTL ∧
      (getCachedAnalysis (cacheAnalysis fullStore "/srv/app" (some sampleAnalysis) 200)
        "/srv/app" 1200).1 = some sampleAnalysis :=
  ⟨by decide, put_then_get fullStore "/srv/app" (some sampleAnalysis) 200 1200 (by decide)⟩

/-! ## The eviction choice (claim C3) -/

/-- Claim C3: in a non-empty map with non-negative hit counts and non-zero
timestamps, the entry `p` removed by `evictOldestEntry` has the lowest hit
count and, among the entries with that hit count, the earliest timestamp: no
surviving entry `q` has a strictly lower hit count, nor an equal hit count
with a strictly earlier timestamp.  The map `s` is any list, so this holds for
every iteration order. -/
theorem evictOldestEntry_removes_min (s : Store) (hwf : s.WF)
    (hall : ∀ p ∈ s, 0 ≤ p.2.hits ∧ p.2.timestamp ≠ 0)
    (p : String × cacheEntry) (hp : p ∈ s) (hgone : p.1 ∉ (evictOldestEntry s).keys) :
    ∀ q ∈ evictOldestEntry s,
      ¬ q.2.hits < p.2.hits ∧ ¬ (q.2.hits = p.2.hits ∧ q.2.timestamp < p.2.timestamp) := by
  have hne : s ≠ [] := List.ne_nil_of_mem hp
  obtain ⟨p0, hp0, hfold, hmin⟩ := evictFold_picks_min s hne hall
  have hsz : ¬ s.size = 0 := by
    intro h
    exact hne (List.length_eq_zero.mp h)
  have hev : evictOldestEntry s = if p0.1 ≠ "" then s.delete p0.1 else s := by
    unfold evictOldestEntry
    rw [if_neg hsz]
    simp only [hfold, pick]
  have hpk : p.1 ∈ s.keys := Store.mem_keys_of_mem s p hp
  by_cases h0 : p0.1 ≠ ""
  · rw [hev, if_pos h0] at hgone ⊢
    have hkey : p.1 = p0.1 := by
      by_contra hk
      apply hgone
      rw [Store.keys_delete]
      exact List.mem_filter.mpr ⟨hpk, by simpa using hk⟩
    have hpp : p = p0 := Store.eq_of_mem_of_key_eq s hwf p p0 hp hp0 hkey
    subst hpp
    intro q hq
    have hqs : q ∈ s := (List.mem_filter.mp hq).1
    have := hmin q hqs
    unfold Time at *
    omega
  · rw [hev, if_neg h0] at hgone
    exact absurd hpk hgone

/-- The statement of `evictOldestEntry_removes_min` on a map of three entries:
`"/c"` (no hit, written at 7) survives the removal of `"/a"` (no hit, written
at 5) and is neither hit less often nor, with as many hits, older. -/
theorem evictOldestEntry_removes_min_witness :
    (("/c", { analysis := none, timestamp := 7, hits := 0 }) : String × cacheEntry) ∈
        evictOldestEntry
          [("/b", { analysis := none, timestamp := 3, hits := 1 }),
           ("/a", { analysis := none, timestamp := 5, hits := 0 }),
           ("/c", { analysis := none, timestamp := 7, hits := 0 })] ∧
      "/a" ∉ Store.keys (evictOldestEntry
          [("/b", { analysis := none, timestamp := 3, hits := 1 }),
           ("/a", { analysis := none, timestamp := 5, hits := 0 }),
           ("/c", { analysis := none, timestamp := 7, hits := 0 })]) ∧
      ¬ (0 : Int) < (0 : Int) ∧ ¬ ((0 : Int) = (0 : Int) ∧ (7 : Time) < (5 : Time)) :=
  ⟨by decide, by decide,
    evictOldestEntry_removes_min
      [("/b", { analysis := none, timestamp := 3, hits := 1 }),
       ("/a", { analysis := none, timestamp := 5, hits := 0 }),
       ("/c", { analysis := none, timestamp := 7, hits := 0 })]
      (by decide) (by decide)
      ("/a", { analysis := none, timestamp := 5, hits := 0 }) (by decide) (by decide)
      ("/c", { analysis := none, timestamp := 7, hits := 0 }) (by decide)⟩

/-! ## No negative caching (claim C5) -/

theorem AnalyzeProject_abs (env : Env) (s : Store) (K : String) (now now2 : Time)
    (hK : K ≠ "") (habs : env.IsAbs K = true) :
    AnalyzeProject env s { ProjectPath := K } now now2 =
      match getCachedAnalysis s K now with
      | (some cachedAnalysis, s1) =>
        { response := Response.formatAnalysisResult cachedAnalysis true,
          entries := s1, scans := [] }
      | (none, s1) =>
        match env.ScanProject K with
        | Except.error err =>
          { response := Response.FormatError ("failed to analyze project: " ++ err),
            entries := s1, scans := [K] }
        | Except.ok none =>
          { response := Response.nilDereference,
            entries := cacheAnalysis s1 K none now2, scans := [K] }
        | Except.ok (some analysis) =>
          { response := Response.formatAnalysisResult analysis false,
            entries := cacheAnalysis s1 K (some analysis) now2, scans := [K] } := by
  unfold AnalyzeProject
  simp only [hK, if_false, habs, Bool.true_eq_false]

/-- Claim C5 as stated fails: in the map whose entry for `"/srv/app"` holds a
nil analysis, `getCachedAnalysis` returns that nil, `AnalyzeProject` takes it
for a miss and runs the scan, the scan fails, and the entry is still in the
map after the call. -/
theorem failed_scan_keeps_nil_entry :
    (AnalyzeProject failingEnv [("/srv/app", { analysis := none, timestamp := 10, hits := 0 })]
        { ProjectPath := "/srv/app" } 20 30).scans = ["/srv/app"] ∧
      failingEnv.ScanProject "/srv/app" = Except.error "scan failed" ∧
      (AnalyzeProject failingEnv [("/srv/app", { analysis := none, timestamp := 10, hits := 0 })]
        { ProjectPath := "/srv/app" } 20 30).entries.get "/srv/app"
        = some { analysis := none, timestamp := 10, hits := 1 } := by
  refine ⟨?_, rfl, ?_⟩ <;> decide

/-- Claim C5, amended: for every map in which the entry of `K`, if there is one
and it is not older than the TTL, holds a non-nil analysis, if `AnalyzeProject`
runs the scan for `K` and the scan fails, then the map holds no entry for `K`
after the call, and the next call of `AnalyzeProject` for `K` (at any clock
values, whatever the scan then returns) runs the scan again. -/
theorem failed_scan_not_cached (env : Env) (s : Store) (K : String) (now now2 : Time)
    (err : String) (hK : K ≠ "") (habs : env.IsAbs K = true)
    (hnonnil : ∀ e, s.get K = some e → now - e.timestamp ≤ cacheTTL → e.analysis ≠ none)
    (hscan : (AnalyzeProject env s { ProjectPath := K } now now2).scans = [K])
    (hfail : env.ScanProject K = Except.error err) :
    (AnalyzeProject env s { ProjectPath := K } now now2).entries.get K = none ∧
      ∀ (env2 : Env) (t t2 : Time), env2.IsAbs K = true →
        (AnalyzeProject env2 (AnalyzeProject env s { ProjectPath := K } now now2).entries
          { ProjectPath := K } t t2).scans = [K] := by
  have hent : (AnalyzeProject env s { ProjectPath := K } now now2).entries.get K = none := by
    rw [AnalyzeProject_abs env s K now now2 hK habs] at hscan ⊢
    cases hg : s.get K with
    | none =>
      rw [getCachedAnalysis_absent s K now hg, hfail]
      exact hg
    | some e =>
      by_cases hexp : now - e.timestamp > cacheTTL
      · rw [getCachedAnalysis_expired s K now e hg hexp, hfail]
        simp only
        rw [Store.get_delete, if_pos rfl]
      · rw [getCachedAnalysis_fresh s K now e hg (not_lt.mp hexp)] at hscan
        cases ha : e.analysis with
        | none => exact absurd ha (hnonnil e hg (not_lt.mp hexp))
        | some a =>
          rw [ha] at hscan
          simp at hscan
  refine ⟨hent, ?_⟩
  intro env2 t t2 habs2
  rw [AnalyzeProject_abs env2 _ K t t2 hK habs2, getCachedAnalysis_absent _ K t hent]
  rcases env2.ScanProject K with _ | _ | _ <;> rfl

/-- The statement of `failed_scan_not_cached` on a map whose entry for
`"/srv/app"` is older than the TTL. -/
theorem failed_scan_not_cached_witness :
    (AnalyzeProject failingEnv
        [("/srv/app", { analysis := some sampleAnalysis, timestamp := 10, hits := 2 })]
        { ProjectPath := "/srv/app" } 400000000000 400000000001).entries.get "/srv/app" = none ∧
      ∀ (env2 : Env) (t t2 : Time), env2.IsAbs "/srv/app" = true →
        (AnalyzeProject env2
          (AnalyzeProject failingEnv
            [("/srv/app", { analysis := some sampleAnalysis, timestamp := 10, hits := 2 })]
            { ProjectPath := "/srv/app" } 400000000000 400000000001).entries
          { ProjectPath := "/srv/app" } t t2).scans = ["/srv/app"] :=
  failed_scan_not_cached failingEnv
    [("/srv/app", { analysis := some sampleAnalysis, timestamp := 10, hits := 2 })]
    "/srv/app" 400000000000 400000000001 "scan failed" (by decide) rfl
    (by
      intro e he _
      have h2 : e = { analysis := some sampleAnalysis, timestamp := 10, hits := 2 } := by
        simpa [Store.get] using he.symm
      rw [h2]
      exact Option.some_ne_none _)
    (by decide) rfl

/-! ## Read and touch (claim C6) -/

/-- Claim C6 as stated fails: `entry.hits++` is an addition on a Go `int`.  On an
unexpired entry whose hit count is the largest `int`, the read leaves the hit
count at the smallest `int`, not one higher. -/
theorem getCachedAnalysis_touch_wraps :
    maxHitsStore.get "/a"
        = some { analysis := some sampleAnalysis, timestamp := 5, hits := maxInt } ∧
      (100 : Time) - 5 ≤ cacheTTL ∧
      (getCachedAnalysis maxHitsStore "/a" 100).2.get "/a"
        = some { analysis := some sampleAnalysis, timestamp := 5, hits := minInt } ∧
      minInt ≠ maxInt + 1 := by
  refine ⟨?_, ?_, ?_, ?_⟩ <;> decide

/-- Claim C6, amended: a `getCachedAnalysis` on a key whose entry is unexpired
and whose hit count is below the largest `int` leaves the map identical except
that this entry has its hit count increased by exactly 1; its timestamp and
analysis, every other entry and the set of keys are unchanged. -/
theorem getCachedAnalysis_touch (s : Store) (k : String) (now : Time) (e : cacheEntry)
    (hget : s.get k = some e) (hfresh : now - e.timestamp ≤ cacheTTL)
    (hlo : minInt ≤ e.hits) (hhi : e.hits < maxInt) :
    (∀ k2, (getCachedAnalysis s k now).2.get k2 =
        if k2 = k then
          some { analysis := e.analysis, timestamp := e.timestamp, hits := e.hits + 1 }
        else s.get k2) ∧
      (getCachedAnalysis s k now).2.keys = s.keys ∧
      (getCachedAnalysis s k now).2.size = s.size := by
  rw [getCachedAnalysis_fresh s k now e hget hfresh]
  have hk : k ∈ s.keys := by
    by_contra h
    rw [(Store.get_eq_none_iff s k).mpr h] at hget
    exact Option.noConfusion hget
  have hw : wrapInt (e.hits + 1) = e.hits + 1 :=
    wrapInt_of_range (e.hits + 1) (by omega) (by omega)
  refine ⟨?_, ?_, ?_⟩
  · intro k2
    simp only [hw]
    exact Store.get_set s k _ k2
  · simp only
    rw [Store.keys_set, if_pos hk]
  · exact Store.size_set_of_mem s k _ hk

/-- The statement of `getCachedAnalysis_touch` on `twoEntries`, read at the
clock value 100. -/
theorem getCachedAnalysis_touch_witness :
    (∀ k2, (getCachedAnalysis twoEntries "/a" 100).2.get k2 =
        if k2 = "/a" then
          some { analysis := some sampleAnalysis, timestamp := 5, hits := 3 + 1 }
        else twoEntries.get k2) ∧
      (getCachedAnalysis twoEntries "/a" 100).2.keys = twoEntries.keys ∧
      (getCachedAnalysis twoEntries "/a" 100).2.size = twoEntries.size :=
  getCachedAnalysis_touch twoEntries "/a" 100
    { analysis := some sampleAnalysis, timestamp := 5, hits := 3 }
    (by decide) (by decide) (by decide) (by decide)

/-! ## When eviction runs (claim C7) -/

/-- Claim C7 as stated fails: `fullStore` is at capacity and already holds the
key `"aa"`, yet `cacheAnalysis("aa", R)` removes the entry of the other key
`"a"`: the test before `evictOldestEntry` looks at the size only. -/
theorem refresh_at_capacity_evicts_other_key :
    maxCacheEntries ≤ fullStore.size ∧ fullStore.WF ∧
      fullStore.get "aa" = some { analysis := none, timestamp := 2, hits := 0 } ∧
      fullStore.get "a" = some { analysis := none, timestamp := 1, hits := 0 } ∧
      (cacheAnalysis fullStore "aa" (some sampleAnalysis) 200).get "a" = none := by
  refine ⟨?_, ?_, ?_, ?_, ?_⟩ <;> decide

/-- Claim C7, amended: `cacheAnalysis` runs the eviction exactly when the map
is at capacity, whether or not the key is present.  Below capacity every key
other than `K` keeps its entry.  At capacity the map left is that of
`evictOldestEntry` with `K` assigned, so at most one key other than `K` (the
one picked by the eviction) loses its entry and every other key keeps its
entry unchanged. -/
theorem cacheAnalysis_eviction (s : Store) (K : String) (R : Option ProjectAnalysis)
    (now : Time) :
    (s.size < maxCacheEntries →
        ∀ k2, k2 ≠ K → (cacheAnalysis s K R now).get k2 = s.get k2) ∧
      (maxCacheEntries ≤ s.size →
        cacheAnalysis s K R now =
            (evictOldestEntry s).set K { analysis := R, timestamp := now, hits := 0 } ∧
          ∃ victim, ∀ k2, k2 ≠ K → k2 ≠ victim →
            (cacheAnalysis s K R now).get k2 = s.get k2) := by
  constructor
  · intro hlt k2 hk2
    unfold cacheAnalysis
    simp only [ge_iff_le, not_le.mpr hlt, if_false]
    rw [Store.get_set, if_neg hk2]
  · intro hfull
    have heq : cacheAnalysis s K R now =
        (evictOldestEntry s).set K { analysis := R, timestamp := now, hits := 0 } := by
      unfold cacheAnalysis
      simp only [ge_iff_le, hfull, if_true]
    refine ⟨heq, ?_⟩
    rw [heq]
    by_cases hne : s = []
    · subst hne
      refine ⟨"", fun k2 hk2 _ => ?_⟩
      rw [Store.get_set, if_neg hk2, evictOldestEntry_nil]
    · obtain ⟨p, _, _, he⟩ := evictOldestEntry_eq s hne
      refine ⟨p.1, fun k2 hk2 hv => ?_⟩
      rw [Store.get_set, if_neg hk2, he]
      split_ifs
      · rw [Store.get_delete, if_neg hv]
      · rfl

/-- The statement of `cacheAnalysis_eviction` at capacity, on `fullStore` and
its key `"aa"`. -/
theorem cacheAnalysis_eviction_witness :
    cacheAnalysis fullStore "aa" (some sampleAnalysis) 200 =
        (evictOldestEntry fullStore).set "aa"
          { analysis := some sampleAnalysis, timestamp := 200, hits := 0 } ∧
      ∃ victim, ∀ k2, k2 ≠ "aa" → k2 ≠ victim →
        (cacheAnalysis fullStore "aa" (some sampleAnalysis) 200).get k2 = fullStore.get k2 :=
  (cacheAnalysis_eviction fullStore "aa" (some sampleAnalysis) 200).2 (by decide)

/-! ## One eviction removes one entry (claim C8) -/

/-- Claim C8 as stated fails: on the non-empty map whose only key is the empty
string, `evictOldestEntry` removes nothing, because the test
`oldestPath != ""` takes the selected key for no selection. -/
theorem evictOldestEntry_keeps_empty_key :
    evictOldestEntry [("", { analysis := some sampleAnalysis, timestamp := 5, hits := 0 })]
        = [("", { analysis := some sampleAnalysis, timestamp := 5, hits := 0 })] ∧
      (evictOldestEntry
        [("", { analysis := some sampleAnalysis, timestamp := 5, hits := 0 })]).size = 1 := by
  constructor <;> decide

/-- Claim C8, amended: on every non-empty map whose keys are non-empty strings,
one call of `evictOldestEntry` removes exactly one entry: some key of the map
loses its entry, the size decreases by exactly 1 and every other key keeps
its entry unchanged. -/
theorem evictOldestEntry_removes_one (s : Store) (hwf : s.WF) (hne : s ≠ [])
    (hkeys : "" ∉ s.keys) :
    ∃ k, k ∈ s.keys ∧ (evictOldestEntry s).size + 1 = s.size ∧
      ∀ k2, (evictOldestEntry s).get k2 = if k2 = k then none else s.get k2 := by
  obtain ⟨p, hp, _, he⟩ := evictOldestEntry_eq s hne
  have hpk : p.1 ∈ s.keys := Store.mem_keys_of_mem s p hp
  have hp1 : p.1 ≠ "" := fun h => hkeys (h ▸ hpk)
  refine ⟨p.1, hpk, evictOldestEntry_size s hwf hne hkeys, ?_⟩
  intro k2
  rw [he, if_pos hp1]
  exact Store.get_delete s p.1 k2

/-- The statement of `evictOldestEntry_removes_one` on a map of two entries. -/
theorem evictOldestEntry_removes_one_witness :
    ∃ k, k ∈ Store.keys
        [("/a", { analysis := none, timestamp := 5, hits := 3 }),
         ("/b", { analysis := none, timestamp := 7, hits := 0 })] ∧
      (evictOldestEntry
        [("/a", { analysis := none, timestamp := 5, hits := 3 }),
         ("/b", { analysis := none, timestamp := 7, hits := 0 })]).size + 1 =
        Store.size
          [("/a", { analysis := none, timestamp := 5, hits := 3 }),
           ("/b", { analysis := none, timestamp := 7, hits := 0 })] ∧
      ∀ k2, (evictOldestEntry
        [("/a", { analysis := none, timestamp := 5, hits := 3 }),
         ("/b", { analysis := none, timestamp := 7, hits := 0 })]).get k2 =
        if k2 = k then none else Store.get
          [("/a", { analysis := none, timestamp := 5, hits := 3 }),
           ("/b", { analysis := none, timestamp := 7, hits := 0 })] k2 :=
  evictOldestEntry_removes_one
    [("/a", { analysis := none, timestamp := 5, hits := 3 }),
     ("/b", { analysis := none, timestamp := 7, hits := 0 })]
    (by decide) (by decide) (by decide)

/-! ## The sweep (claim C9) -/

/-- Claim C9: after `cleanupExpiredEntries` the map consists of exactly the
entries that had `now - createdAt <= cacheTTL`, each unchanged; every entry
older than the TTL is gone. -/
theorem cleanupExpiredEntries_eq (s : Store) (now : Time) (hwf : s.WF) :
    cleanupExpiredEntries s now =
      s.filter (fun p => decide (now - p.2.timestamp ≤ cacheTTL)) := by
  unfold cleanupExpiredEntries
  rw [cleanupLoop_eq]
  apply List.filter_congr
  intro p hp
  by_cases hexp : now - p.2.timestamp > cacheTTL
  · have h1 : sweptKey now s p.1 = true := by
      unfold sweptKey
      rw [List.any_eq_true]
      exact ⟨p, hp, by simp [(timeSub_gt_iff now p.2.timestamp).mpr hexp]⟩
    have h2 : ¬ now - p.2.timestamp ≤ cacheTTL := not_le.mpr hexp
    simp [h1, h2]
  · have h1 : sweptKey now s p.1 = false := by
      unfold sweptKey
      rw [List.any_eq_false]
      intro q hq
      by_cases hk : q.1 = p.1
      · have hqp : q = p := Store.eq_of_mem_of_key_eq s hwf q p hq hp hk
        subst hqp
        have : ¬ timeSub now q.2.timestamp > cacheTTL :=
          fun h => hexp ((timeSub_gt_iff now q.2.timestamp).mp h)
        simp [this]
      · simp [hk]
    have h2 : now - p.2.timestamp ≤ cacheTTL := not_lt.mp hexp
    simp [h1, h2]

/-- The statement of `cleanupExpiredEntries_eq` on a map of two entries, one of
them older than the TTL at the clock value of the sweep. -/
theorem cleanupExpiredEntries_eq_witness :
    cleanupExpiredEntries
        [("/a", { analysis := none, timestamp := 5, hits := 3 }),
         ("/b", { analysis := none, timestamp := 200000000000, hits := 0 })] 400000000000 =
      List.filter (fun p => decide ((400000000000 : Time) - p.2.timestamp ≤ cacheTTL))
        [("/a", { analysis := none, timestamp := 5, hits := 3 }),
         ("/b", { analysis := none, timestamp := 200000000000, hits := 0 })] :=
  cleanupExpiredEntries_eq
    [("/a", { analysis := none, timestamp := 5, hits := 3 }),
     ("/b", { analysis := none, timestamp := 200000000000, hits := 0 })] 400000000000
    (by decide)

/-! ## Lazy expiry on read (claim C10) -/

/-- Claim C10: when the entry of `K` has `now - createdAt > cacheTTL`,
`getCachedAnalysis(K)` returns nil and leaves the previous map with exactly
the entry of `K` removed: `K` has no entry, every other key keeps its entry
unchanged and the size is one less. -/
theorem getCachedAnalysis_lazy_expiry (s : Store) (K : String) (now : Time) (e : cacheEntry)
    (hwf : s.WF) (hget : s.get K = some e) (hexp : now - e.timestamp > cacheTTL) :
    (getCachedAnalysis s K now).1 = none ∧
      (∀ k2, (getCachedAnalysis s K now).2.get k2 = if k2 = K then none else s.get k2) ∧
      (getCachedAnalysis s K now).2.size + 1 = s.size := by
  rw [getCachedAnalysis_expired s K now e hget hexp]
  have hk : K ∈ s.keys := by
    by_contra h
    rw [(Store.get_eq_none_iff s K).mpr h] at hget
    exact Option.noConfusion hget
  exact ⟨rfl, fun k2 => Store.get_delete s K k2, Store.size_delete s K hwf hk⟩

/-- The statement of `getCachedAnalysis_lazy_expiry` on a map of two entries,
read when the entry of `"/a"` is older than the TTL. -/
theorem getCachedAnalysis_lazy_expiry_witness :
    (getCachedAnalysis
        [("/a", { analysis := some sampleAnalysis, timestamp := 5, hits := 3 }),
         ("/b", { analysis := none, timestamp := 200000000000, hits := 0 })]
        "/a" 400000000000).1 = none ∧
      (∀ k2, (getCachedAnalysis
        [("/a", { analysis := some sampleAnalysis, timestamp := 5, hits := 3 }),
         ("/b", { analysis := none, timestamp := 200000000000, hits := 0 })]
        "/a" 400000000000).2.get k2 = if k2 = "/a" then none else Store.get
          [("/a", { analysis := some sampleAnalysis, timestamp := 5, hits := 3 }),
           ("/b", { analysis := none, timestamp := 200000000000, hits := 0 })] k2) ∧
      (getCachedAnalysis
        [("/a", { analysis := some sampleAnalysis, timestamp := 5, hits := 3 }),
         ("/b", { analysis := none, timestamp := 200000000000, hits := 0 })]
        "/a" 400000000000).2.size + 1 = Store.size
          [("/a", { analysis := some sampleAnalysis, timestamp := 5, hits := 3 }),
           ("/b", { analysis := none, timestamp := 200000000000, hits := 0 })] :=
  getCachedAnalysis_lazy_expiry
    [("/a", { analysis := some sampleAnalysis, timestamp := 5, hits := 3 }),
     ("/b", { analysis := none, timestamp := 200000000000, hits := 0 })]
    "/a" 400000000000 { analysis := some sampleAnalysis, timestamp := 5, hits := 3 }
    (by decide) (by decide) (by decide)

/-! ## Facts about the statistics loop -/

theorem statsFold_hits (l : List (String × cacheEntry)) :
    ∀ st : Int × Time, wrapInt st.1 = st.1 →
      (l.foldl statsStep st).1 = wrapInt (st.1 + (l.map (fun p => p.2.hits)).sum) := by
  induction l with
  | nil =>
    intro st hst
    simp [hst]
  | cons q rest ih =>
    intro st _
    rw [List.foldl_cons, ih (statsStep st q) (wrapInt_idem _), List.map_cons, List.sum_cons]
    have h1 : (statsStep st q).1 = wrapInt (st.1 + q.2.hits) := rfl
    rw [h1, wrapInt_add, add_assoc]

theorem statsStep_oldest (st : Int × Time) (q : String × cacheEntry) :
    (statsStep st q).2 ≤ st.2 ∧ (statsStep st q).2 ≤ q.2.timestamp ∧
      ((statsStep st q).2 = st.2 ∨ (statsStep st q).2 = q.2.timestamp) := by
  unfold statsStep
  by_cases h : q.2.timestamp < st.2
  · have hb : timeBefore q.2.timestamp st.2 = true := by simp [timeBefore, h]
    rw [if_pos hb]
    exact ⟨le_of_lt h, le_refl _, Or.inr rfl⟩
  · have hb : ¬ timeBefore q.2.timestamp st.2 = true := by simp [timeBefore, h]
    rw [if_neg hb]
    exact ⟨le_refl _, not_lt.mp h, Or.inl rfl⟩

/-- The loop of `GetCacheStats` ends with the least of the starting value and
the timestamps visited. -/
theorem statsFold_oldest (l : List (String × cacheEntry)) :
    ∀ st : Int × Time,
      (l.foldl statsStep st).2 ≤ st.2 ∧
      (∀ p ∈ l, (l.foldl statsStep st).2 ≤ p.2.timestamp) ∧
      ((l.foldl statsStep st).2 = st.2 ∨
        ∃ p ∈ l, (l.foldl statsStep st).2 = p.2.timestamp) := by
  induction l with
  | nil =>
    intro st
    refine ⟨le_refl _, ?_, Or.inl rfl⟩
    intro p hp
    simp at hp
  | cons q rest ih =>
    intro st
    rw [List.foldl_cons]
    obtain ⟨h1, h2, h3⟩ := ih (statsStep st q)
    obtain ⟨g1, g2, g3⟩ := statsStep_oldest st q
    refine ⟨le_trans h1 g1, ?_, ?_⟩
    · intro p hp
      rcases List.mem_cons.mp hp with hp | hp
      · subst hp
        exact le_trans h1 g2
      · exact h2 p hp
    · rcases h3 with h3 | ⟨p, hp, h3⟩
      · rcases g3 with g3 | g3
        · exact Or.inl (h3.trans g3)
        · exact Or.inr ⟨q, List.mem_cons_self _ _, h3.trans g3⟩
      · exact Or.inr ⟨p, List.mem_cons_of_mem _ hp, h3⟩

/-! ## Lookup or compute (claim C11) -/

theorem AnalyzeProject_hit (env : Env) (s : Store) (K : String) (now now2 : Time)
    (s1 : Store) (a : ProjectAnalysis) (hK : K ≠ "") (habs : env.IsAbs K = true)
    (hg : getCachedAnalysis s K now = (some a, s1)) :
    AnalyzeProject env s { ProjectPath := K } now now2 =
      { response := Response.formatAnalysisResult a true, entries := s1, scans := [] } := by
  rw [AnalyzeProject_abs env s K now now2 hK habs, hg]

theorem AnalyzeProject_miss_ok (env : Env) (s : Store) (K : String) (now now2 : Time)
    (s1 : Store) (a : ProjectAnalysis) (hK : K ≠ "") (habs : env.IsAbs K = true)
    (hg : getCachedAnalysis s K now = (none, s1))
    (hR : env.ScanProject K = Except.ok (some a)) :
    AnalyzeProject env s { ProjectPath := K } now now2 =
      { response := Response.formatAnalysisResult a false,
        entries := cacheAnalysis s1 K (some a) now2, scans := [K] } := by
  rw [AnalyzeProject_abs env s K now now2 hK habs, hg]
  simp only [hR]

theorem AnalyzeProject_miss_nil (env : Env) (s : Store) (K : String) (now now2 : Time)
    (s1 : Store) (hK : K ≠ "") (habs : env.IsAbs K = true)
    (hg : getCachedAnalysis s K now = (none, s1))
    (hR : env.ScanProject K = Except.ok none) :
    AnalyzeProject env s { ProjectPath := K } now now2 =
      { response := Response.nilDereference,
        entries := cacheAnalysis s1 K none now2, scans := [K] } := by
  rw [AnalyzeProject_abs env s K now now2 hK habs, hg]
  simp only [hR]

theorem AnalyzeProject_miss_error (env : Env) (s : Store) (K : String) (now now2 : Time)
    (s1 : Store) (err : String) (hK : K ≠ "") (habs : env.IsAbs K = true)
    (hg : getCachedAnalysis s K now = (none, s1))
    (hE : env.ScanProject K = Except.error err) :
    AnalyzeProject env s { ProjectPath := K } now now2 =
      { response := Response.FormatError ("failed to analyze project: " ++ err),
        entries := s1, scans := [K] } := by
  rw [AnalyzeProject_abs env s K now now2 hK habs, hg]
  simp only [hE]

theorem AnalyzeProject_miss_scans (env : Env) (s : Store) (K : String) (now now2 : Time)
    (s1 : Store) (hK : K ≠ "") (habs : env.IsAbs K = true)
    (hg : getCachedAnalysis s K now = (none, s1)) :
    (AnalyzeProject env s { ProjectPath := K } now now2).scans = [K] := by
  cases hE : env.ScanProject K with
  | error err => rw [AnalyzeProject_miss_error env s K now now2 s1 err hK habs hg hE]
  | ok R =>
    cases R with
    | none => rw [AnalyzeProject_miss_nil env s K now now2 s1 hK habs hg hE]
    | some a => rw [AnalyzeProject_miss_ok env s K now now2 s1 a hK habs hg hE]

/-- The outcome of `getCachedAnalysis` read as `AnalyzeProject` reads it: a
non-nil analysis, or nil. -/
theorem getCachedAnalysis_cases (s : Store) (K : String) (now : Time) :
    (∃ a s1, getCachedAnalysis s K now = (some a, s1)) ∨
      ∃ s1, getCachedAnalysis s K now = (none, s1) := by
  rcases h : getCachedAnalysis s K now with ⟨r, s1⟩
  cases r with
  | none => exact Or.inr ⟨s1, rfl⟩
  | some a => exact Or.inl ⟨a, s1, rfl⟩


/-- Claim C11 as stated fails in its part (a): the entry of `"/srv/app"` in
`nilEntryStore` is not older than the TTL at the clock value 20, yet
`AnalyzeProject` runs the scan and returns its result flagged
`from_cache = false`, because the nil analysis that `getCachedAnalysis`
returns is taken for a miss. -/
theorem unexpired_nil_entry_is_rescanned :
    nilEntryStore.get "/srv/app" = some { analysis := none, timestamp := 10, hits := 0 } ∧
      (20 : Time) - 10 ≤ cacheTTL ∧
      (AnalyzeProject scanningEnv nilEntryStore { ProjectPath := "/srv/app" } 20 30).scans
        = ["/srv/app"] ∧
      (AnalyzeProject scanningEnv nilEntryStore { ProjectPath := "/srv/app" } 20 30).response
        = Response.formatAnalysisResult sampleAnalysis false := by
  refine ⟨?_, ?_, ?_, ?_⟩ <;> decide

/-- Claim C11, amended: for every map and absolute key `K`, `AnalyzeProject`
(a) on an entry of `K` that is not older than the TTL and holds a non-nil
analysis returns that analysis flagged `from_cache = true` without running the
scan, and (b) otherwise (no entry, an entry older than the TTL, or an entry
holding a nil analysis) runs the scan exactly once, with `K`, and, when the
scan succeeds with a non-nil analysis `R`, returns `R` flagged
`from_cache = false` and leaves a map in which `K` has the entry with analysis
`R`, the timestamp read by `cacheAnalysis` and hit count 0. -/
theorem lookup_or_compute (env : Env) (s : Store) (K : String) (now now2 : Time)
    (hK : K ≠ "") (habs : env.IsAbs K = true) :
    (∀ e a, s.get K = some e → now - e.timestamp ≤ cacheTTL → e.analysis = some a →
        (AnalyzeProject env s { ProjectPath := K } now now2).response
            = Response.formatAnalysisResult a true ∧
          (analysisData a true).from_cache = true ∧
          (AnalyzeProject env s { ProjectPath := K } now now2).scans = []) ∧
      ((s.get K = none ∨
          ∃ e, s.get K = some e ∧ (now - e.timestamp > cacheTTL ∨ e.analysis = none)) →
        (AnalyzeProject env s { ProjectPath := K } now now2).scans = [K] ∧
          ∀ R, env.ScanProject K = Except.ok (some R) →
            (AnalyzeProject env s { ProjectPath := K } now now2).response
                = Response.formatAnalysisResult R false ∧
              (analysisData R false).from_cache = false ∧
              (AnalyzeProject env s { ProjectPath := K } now now2).entries.get K
                = some { analysis := some R, timestamp := now2, hits := 0 }) := by
  have hmiss : ∀ s1 : Store, getCachedAnalysis s K now = (none, s1) →
      (AnalyzeProject env s { ProjectPath := K } now now2).scans = [K] ∧
        ∀ R, env.ScanProject K = Except.ok (some R) →
          (AnalyzeProject env s { ProjectPath := K } now now2).response
              = Response.formatAnalysisResult R false ∧
            (analysisData R false).from_cache = false ∧
            (AnalyzeProject env s { ProjectPath := K } now now2).entries.get K
              = some { analysis := some R, timestamp := now2, hits := 0 } := by
    intro s1 hg
    refine ⟨AnalyzeProject_miss_scans env s K now now2 s1 hK habs hg, ?_⟩
    intro R hR
    rw [AnalyzeProject_miss_ok env s K now now2 s1 R hK habs hg hR]
    refine ⟨rfl, rfl, ?_⟩
    unfold cacheAnalysis
    simp only
    rw [Store.get_set, if_pos rfl]
  constructor
  · intro e a hget hfresh ha
    have hg : getCachedAnalysis s K now =
        (some a, s.set K { e with hits := wrapInt (e.hits + 1) }) := by
      rw [getCachedAnalysis_fresh s K now e hget hfresh, ha]
    rw [AnalyzeProject_hit env s K now now2 _ a hK habs hg]
    exact ⟨rfl, rfl, rfl⟩
  · rintro (hnone | ⟨e, hget, hexp | hnil⟩)
    · exact hmiss s (getCachedAnalysis_absent s K now hnone)
    · exact hmiss _ (getCachedAnalysis_expired s K now e hget hexp)
    · by_cases hexp : now - e.timestamp > cacheTTL
      · exact hmiss _ (getCachedAnalysis_expired s K now e hget hexp)
      · refine hmiss (s.set K { e with hits := wrapInt (e.hits + 1) }) ?_
        rw [getCachedAnalysis_fresh s K now e hget (not_lt.mp hexp), hnil]

/-- The two parts of `lookup_or_compute` on `twoEntries` read at the clock value
100: the key `"/a"` is served from the cache; the absent key `"/zz"` is scanned
once, and the analysis found is returned and stored. -/
theorem lookup_or_compute_witness :
    ((AnalyzeProject scanningEnv twoEntries { ProjectPath := "/a" } 100 200).response
          = Response.formatAnalysisResult sampleAnalysis true ∧
        (analysisData sampleAnalysis true).from_cache = true ∧
        (AnalyzeProject scanningEnv twoEntries { ProjectPath := "/a" } 100 200).scans = []) ∧
      (AnalyzeProject scanningEnv twoEntries { ProjectPath := "/zz" } 100 200).scans
        = ["/zz"] ∧
      ((AnalyzeProject scanningEnv twoEntries { ProjectPath := "/zz" } 100 200).response
          = Response.formatAnalysisResult sampleAnalysis false ∧
        (analysisData sampleAnalysis false).from_cache = false ∧
        (AnalyzeProject scanningEnv twoEntries { ProjectPath := "/zz" } 100 200).entries.get
            "/zz" = some { analysis := some sampleAnalysis, timestamp := 200, hits := 0 }) :=
  ⟨(lookup_or_compute scanningEnv twoEntries "/a" 100 200 (by decide) rfl).1
      { analysis := some sampleAnalysis, timestamp := 5, hits := 3 } sampleAnalysis
      (by decide) (by decide) rfl,
   ((lookup_or_compute scanningEnv twoEntries "/zz" 100 200 (by decide) rfl).2
      (Or.inl (by decide))).1,
   ((lookup_or_compute scanningEnv twoEntries "/zz" 100 200 (by decide) rfl).2
      (Or.inl (by decide))).2 sampleAnalysis rfl⟩

/-! ## What a failed scan returns (claim C12) -/

/-- Claim C12 as stated fails: when the scan fails with the error
`scan failed`, `AnalyzeProject` does not hand that error on unchanged; it
returns `responses.FormatError` of the new message
`failed to analyze project: scan failed`. -/
theorem scan_error_is_wrapped :
    (AnalyzeProject failingEnv emptyStore { ProjectPath := "/srv/app" } 20 30).scans
        = ["/srv/app"] ∧
      failingEnv.ScanProject "/srv/app" = Except.error "scan failed" ∧
      (AnalyzeProject failingEnv emptyStore { ProjectPath := "/srv/app" } 20 30).response
        = Response.FormatError "failed to analyze project: scan failed" ∧
      (AnalyzeProject failingEnv emptyStore { ProjectPath := "/srv/app" } 20 30).response
        ≠ Response.FormatError "scan failed" := by
  refine ⟨?_, rfl, ?_, ?_⟩ <;> decide

/-- Claim C12, amended: for every absolute key, when `AnalyzeProject` runs the
scan and the scan fails with error `e`, the value returned is
`responses.FormatError` of the message `failed to analyze project: ` followed
by the text of `e`: the failure is not suppressed and its text is kept, behind
that prefix.  The scan is run once (no retry) and the map is the one left by
`getCachedAnalysis`. -/
theorem scan_error_propagated (env : Env) (s : Store) (K : String) (now now2 : Time)
    (err : String) (hK : K ≠ "") (habs : env.IsAbs K = true)
    (hscan : (AnalyzeProject env s { ProjectPath := K } now now2).scans = [K])
    (hfail : env.ScanProject K = Except.error err) :
    (AnalyzeProject env s { ProjectPath := K } now now2).response
        = Response.FormatError ("failed to analyze project: " ++ err) ∧
      (AnalyzeProject env s { ProjectPath := K } now now2).entries
        = (getCachedAnalysis s K now).2 := by
  rcases getCachedAnalysis_cases s K now with ⟨a, s1, hg⟩ | ⟨s1, hg⟩
  · rw [AnalyzeProject_hit env s K now now2 s1 a hK habs hg] at hscan
    simp at hscan
  · rw [AnalyzeProject_miss_error env s K now now2 s1 err hK habs hg hfail, hg]
    exact ⟨rfl, rfl⟩

/-- The statement of `scan_error_propagated` on the empty map. -/
theorem scan_error_propagated_witness :
    (AnalyzeProject failingEnv emptyStore { ProjectPath := "/srv/app" } 20 30).response
        = Response.FormatError ("failed to analyze project: " ++ "scan failed") ∧
      (AnalyzeProject failingEnv emptyStore { ProjectPath := "/srv/app" } 20 30).entries
        = (getCachedAnalysis emptyStore "/srv/app" 20).2 :=
  scan_error_propagated failingEnv emptyStore "/srv/app" 20 30 "scan failed"
    (by decide) rfl (by decide) rfl

/-! ## Statistics (claims C13 and C14) -/

/-- Claim C13 as stated fails: `totalHits += entry.hits` is an addition on a Go
`int`.  On `wrapSumStore`, whose hit counts are the largest `int` and 1,
`total_hits` is the smallest `int` and not the sum of the hit counts. -/
theorem GetCacheStats_total_hits_wraps :
    (GetCacheStats wrapSumStore 100).1.total_hits = minInt ∧
      (wrapSumStore.map (fun p => p.2.hits)).sum = maxInt + 1 ∧
      (GetCacheStats wrapSumStore 100).1.total_hits
        ≠ (wrapSumStore.map (fun p => p.2.hits)).sum := by
  refine ⟨?_, ?_, ?_⟩ <;> decide

/-- Claim C13, amended: `GetCacheStats` returns `total_entries` equal to the
number of entries, `total_hits` equal to the sum of the hit counts of all
entries wrapped into the range of `int`, which is the sum itself whenever the
sum lies in that range, and `max_capacity` equal to `maxCacheEntries`, which
is 100, and leaves the map unchanged. -/
theorem GetCacheStats_totals (s : Store) (now : Time) :
    (GetCacheStats s now).1.total_entries = s.size ∧
      (GetCacheStats s now).1.total_hits = wrapInt (s.map (fun p => p.2.hits)).sum ∧
      (minInt ≤ (s.map (fun p => p.2.hits)).sum →
        (s.map (fun p => p.2.hits)).sum ≤ maxInt →
        (GetCacheStats s now).1.total_hits = (s.map (fun p => p.2.hits)).sum) ∧
      (GetCacheStats s now).1.max_capacity = maxCacheEntries ∧
      (GetCacheStats s now).1.max_capacity = 100 ∧
      (GetCacheStats s now).2 = s := by
  have hsum : (GetCacheStats s now).1.total_hits =
      wrapInt (s.map (fun p => p.2.hits)).sum := by
    have h0 : wrapInt ((0, now) : Int × Time).1 = ((0, now) : Int × Time).1 := by
      rw [wrapInt_eq]
      norm_num
    have h1 := statsFold_hits s (0, now) h0
    simp only [zero_add] at h1
    exact h1
  refine ⟨rfl, hsum, ?_, rfl, rfl, rfl⟩
  intro hlo hhi
  rw [hsum, wrapInt_of_range _ hlo hhi]

/-- The statement of `GetCacheStats_totals` on `twoEntries`, whose hit counts 3
and 0 sum to 3. -/
theorem GetCacheStats_totals_witness :
    (GetCacheStats twoEntries 100).1.total_entries = twoEntries.size ∧
      (GetCacheStats twoEntries 100).1.total_hits
        = wrapInt (twoEntries.map (fun p => p.2.hits)).sum ∧
      (GetCacheStats twoEntries 100).1.total_hits = (twoEntries.map (fun p => p.2.hits)).sum ∧
      (GetCacheStats twoEntries 100).1.max_capacity = 100 :=
  ⟨(GetCacheStats_totals twoEntries 100).1,
   (GetCacheStats_totals twoEntries 100).2.1,
   (GetCacheStats_totals twoEntries 100).2.2.1 (by decide) (by decide),
   (GetCacheStats_totals twoEntries 100).2.2.2.2.1⟩

/-- Claim C14 as stated fails: on the empty map `oldest_entry` is the clock
value read by `GetCacheStats`, the starting value of the loop, and not the
timestamp of an entry. -/
theorem GetCacheStats_oldest_of_empty :
    (GetCacheStats emptyStore 50).1.oldest_entry = 50 ∧
      ¬ ∃ p ∈ emptyStore, (GetCacheStats emptyStore 50).1.oldest_entry = p.2.timestamp := by
  constructor
  · decide
  · simp [emptyStore]

/-- Claim C14, amended: for every non-empty map whose entries were written no
later than the clock value read by `GetCacheStats`, `oldest_entry` is the
oldest timestamp present: it equals the timestamp of some entry and no entry
has an earlier timestamp. -/
theorem GetCacheStats_oldest (s : Store) (now : Time) (hne : s ≠ [])
    (hpast : ∀ p ∈ s, p.2.timestamp ≤ now) :
    (∃ p ∈ s, (GetCacheStats s now).1.oldest_entry = p.2.timestamp) ∧
      ∀ p ∈ s, (GetCacheStats s now).1.oldest_entry ≤ p.2.timestamp := by
  obtain ⟨_, hmin, hex⟩ := statsFold_oldest s (0, now)
  have hold : (GetCacheStats s now).1.oldest_entry = (s.foldl statsStep (0, now)).2 := rfl
  rw [hold]
  refine ⟨?_, hmin⟩
  rcases hex with hnow | hex
  · obtain ⟨p, hp⟩ := List.exists_mem_of_ne_nil s hne
    refine ⟨p, hp, ?_⟩
    have h1 := hmin p hp
    have h2 := hpast p hp
    rw [hnow] at h1 ⊢
    exact le_antisymm h1 h2
  · exact hex

/-- The statement of `GetCacheStats_oldest` on `twoEntries`, read at the clock
value 300000000000. -/
theorem GetCacheStats_oldest_witness :
    (∃ p ∈ twoEntries,
        (GetCacheStats twoEntries 300000000000).1.oldest_entry = p.2.timestamp) ∧
      ∀ p ∈ twoEntries,
        (GetCacheStats twoEntries 300000000000).1.oldest_entry ≤ p.2.timestamp :=
  GetCacheStats_oldest twoEntries 300000000000 (by decide) (by decide)

/-! ## Clearing the cache (claim C15) -/

/-- Claim C15: after `ClearCache` the map is empty: `GetCacheStats` reports
`total_entries = 0` and `total_hits = 0`, and `getCachedAnalysis` returns nil
for every key at every clock value. -/
theorem ClearCache_empties (s : Store) (now : Time) :
    (ClearCache s).size = 0 ∧
      (GetCacheStats (ClearCache s) now).1.total_entries = 0 ∧
      (GetCacheStats (ClearCache s) now).1.total_hits = 0 ∧
      ∀ (k : String) (t : Time), (getCachedAnalysis (ClearCache s) k t).1 = none := by
  refine ⟨rfl, rfl, rfl, ?_⟩
  intro k t
  rfl

/-! ## Insert below capacity (claim C17) -/

/-- Claim C17: on a map with fewer than `maxCacheEntries` entries,
`cacheAnalysis(K, R)` at the clock value `now` leaves a map in which `K` has
the entry with analysis `R`, timestamp `now` and hit count 0, and every other
key has exactly the entry it had before, or none if it had none: nothing is
evicted. -/
theorem cacheAnalysis_below_capacity (s : Store) (K : String) (R : Option ProjectAnalysis)
    (now : Time) (hlt : s.size < maxCacheEntries) :
    (cacheAnalysis s K R now).get K = some { analysis := R, timestamp := now, hits := 0 } ∧
      ∀ k2, k2 ≠ K → (cacheAnalysis s K R now).get k2 = s.get k2 := by
  have heq : cacheAnalysis s K R now =
      s.set K { analysis := R, timestamp := now, hits := 0 } := by
    unfold cacheAnalysis
    simp only [ge_iff_le, not_le.mpr hlt, if_false]
  rw [heq]
  constructor
  · rw [Store.get_set, if_pos rfl]
  · intro k2 hk2
    rw [Store.get_set, if_neg hk2]

/-- The statement of `cacheAnalysis_below_capacity` on `twoEntries` and the new
key `"/c"`. -/
theorem cacheAnalysis_below_capacity_witness :
    (cacheAnalysis twoEntries "/c" (some sampleAnalysis) 900).get "/c"
        = some { analysis := some sampleAnalysis, timestamp := 900, hits := 0 } ∧
      ∀ k2, k2 ≠ "/c" →
        (cacheAnalysis twoEntries "/c" (some sampleAnalysis) 900).get k2 = twoEntries.get k2 :=
  cacheAnalysis_below_capacity twoEntries "/c" (some sampleAnalysis) 900 (by decide)

/-! ## A read of an absent key (claim C18) -/

/-- Claim C18: for a key `K` that is not in the map, `getCachedAnalysis(K)`
returns nil and leaves the map exactly as it was. -/
theorem getCachedAnalysis_absent_no_effect (s : Store) (K : String) (now : Time)
    (habsent : K ∉ s.keys) :
    (getCachedAnalysis s K now).1 = none ∧ (getCachedAnalysis s K now).2 = s := by
  rw [getCachedAnalysis_absent s K now ((Store.get_eq_none_iff s K).mpr habsent)]
  exact ⟨rfl, rfl⟩

/-- The statement of `getCachedAnalysis_absent_no_effect` on `twoEntries` and
the key `"/zz"`. -/
theorem getCachedAnalysis_absent_no_effect_witness :
    (getCachedAnalysis twoEntries "/zz" 100).1 = none ∧
      (getCachedAnalysis twoEntries "/zz" 100).2 = twoEntries :=
  getCachedAnalysis_absent_no_effect twoEntries "/zz" 100 (by decide)

/-! ## What a nil return says about the map (claim C19) -/

/-- Claim C19 as stated fails: on `nilEntryStore`, read at the clock value 20,
`getCachedAnalysis("/srv/app")` returns nil, yet the map still holds the entry
of `"/srv/app"`, with its hit count raised to 1. -/
theorem nil_entry_miss_keeps_key :
    (getCachedAnalysis nilEntryStore "/srv/app" 20).1 = none ∧
      (getCachedAnalysis nilEntryStore "/srv/app" 20).2.get "/srv/app"
        = some { analysis := none, timestamp := 10, hits := 1 } := by
  constructor <;> decide

/-- Claim C19, amended: for every map in which the entry of `K`, if there is one
and it is not older than the TTL, holds a non-nil analysis, whenever
`getCachedAnalysis(K)` returns nil the map holds no entry for `K` afterwards,
so the put that follows in `AnalyzeProject` adds a key. -/
theorem miss_means_absent (s : Store) (K : String) (now : Time)
    (hnonnil : ∀ e, s.get K = some e → now - e.timestamp ≤ cacheTTL → e.analysis ≠ none)
    (hmiss : (getCachedAnalysis s K now).1 = none) :
    (getCachedAnalysis s K now).2.get K = none ∧
      K ∉ (getCachedAnalysis s K now).2.keys := by
  have hget : (getCachedAnalysis s K now).2.get K = none := by
    cases hg : s.get K with
    | none =>
      rw [getCachedAnalysis_absent s K now hg]
      exact hg
    | some e =>
      by_cases hexp : now - e.timestamp > cacheTTL
      · rw [getCachedAnalysis_expired s K now e hg hexp]
        simp only
        rw [Store.get_delete, if_pos rfl]
      · rw [getCachedAnalysis_fresh s K now e hg (not_lt.mp hexp)] at hmiss
        exact absurd hmiss (hnonnil e hg (not_lt.mp hexp))
  exact ⟨hget, (Store.get_eq_none_iff _ K).mp hget⟩

/-- The statement of `miss_means_absent` on `twoEntries`, read when the entry of
`"/a"` is older than the TTL. -/
theorem miss_means_absent_witness :
    (getCachedAnalysis twoEntries "/a" 400000000000).2.get "/a" = none ∧
      "/a" ∉ (getCachedAnalysis twoEntries "/a" 400000000000).2.keys :=
  miss_means_absent twoEntries "/a" 400000000000
    (by
      intro e he hfresh
      have h2 : e = { analysis := some sampleAnalysis, timestamp := 5, hits := 3 } := by
        simpa [twoEntries, Store.get] using he.symm
      rw [h2]
      exact Option.some_ne_none _)
    (by decide)

/-! ## The sweep and the read path agree (claim C20) -/

theorem Store.WF_filter (s : Store) (f : String × cacheEntry → Bool) (hwf : s.WF) :
    Store.WF (s.filter f) := by
  unfold Store.WF Store.keys at *
  exact hwf.sublist ((List.filter_sublist s).map Prod.fst)

/-- On a map with distinct keys the sweep keeps the entries that are not older
than the TTL, in place. -/
theorem cleanup_eq_filter (s : Store) (now : Time) (hwf : s.WF) :
    cleanupExpiredEntries s now =
      s.filter (fun p => decide (now - p.2.timestamp ≤ cacheTTL)) := by
  unfold cleanupExpiredEntries
  rw [cleanupLoop_eq]
  apply List.filter_congr
  intro p hp
  by_cases hexp : now - p.2.timestamp > cacheTTL
  · have h1 : sweptKey now s p.1 = true := by
      unfold sweptKey
      rw [List.any_eq_true]
      exact ⟨p, hp, by simp [(timeSub_gt_iff now p.2.timestamp).mpr hexp]⟩
    have h2 : ¬ now - p.2.timestamp ≤ cacheTTL := not_le.mpr hexp
    simp [h1, h2]
  · have h1 : sweptKey now s p.1 = false := by
      unfold sweptKey
      rw [List.any_eq_false]
      intro q hq
      by_cases hk : q.1 = p.1
      · have hqp : q = p := Store.eq_of_mem_of_key_eq s hwf q p hq hp hk
        subst hqp
        have : ¬ timeSub now q.2.timestamp > cacheTTL :=
          fun h => hexp ((timeSub_gt_iff now q.2.timestamp).mp h)
        simp [this]
      · simp [hk]
    have h2 : now - p.2.timestamp ≤ cacheTTL := not_lt.mp hexp
    simp [h1, h2]


/-- Claim C20: running `cleanupExpiredEntries` twice at the same clock value
gives the same map as running it once, and after a sweep every remaining key
is a hit for `getCachedAnalysis` at that clock value: the call returns the
stored analysis and keeps the entry, with its hit count incremented. -/
theorem sweep_idempotent_and_fresh (s : Store) (now : Time) (hwf : s.WF) :
    cleanupExpiredEntries (cleanupExpiredEntries s now) now = cleanupExpiredEntries s now ∧
      ∀ p ∈ cleanupExpiredEntries s now,
        getCachedAnalysis (cleanupExpiredEntries s now) p.1 now =
          (p.2.analysis,
            (cleanupExpiredEntries s now).set p.1
              { p.2 with hits := wrapInt (p.2.hits + 1) }) := by
  have heq := cleanup_eq_filter s now hwf
  have hwf2 : Store.WF (cleanupExpiredEntries s now) := by
    rw [heq]
    exact Store.WF_filter s _ hwf
  constructor
  · rw [cleanup_eq_filter _ now hwf2, heq, List.filter_filter]
    apply List.filter_congr
    intro p _
    simp
  · intro p hp
    have hget : (cleanupExpiredEntries s now).get p.1 = some p.2 :=
      Store.get_of_mem _ hwf2 p.1 p.2 hp
    have hfresh : now - p.2.timestamp ≤ cacheTTL := by
      rw [heq] at hp
      simpa using (List.mem_filter.mp hp).2
    exact getCachedAnalysis_fresh _ p.1 now p.2 hget hfresh

/-- The statement of `sweep_idempotent_and_fresh` on `twoEntries`, swept when
the entry of `"/a"` is older than the TTL. -/
theorem sweep_idempotent_and_fresh_witness :
    cleanupExpiredEntries (cleanupExpiredEntries twoEntries 400000000000) 400000000000
        = cleanupExpiredEntries twoEntries 400000000000 ∧
      ∀ p ∈ cleanupExpiredEntries twoEntries 400000000000,
        getCachedAnalysis (cleanupExpiredEntries twoEntries 400000000000) p.1 400000000000 =
          (p.2.analysis,
            (cleanupExpiredEntries twoEntries 400000000000).set p.1
              { p.2 with hits := wrapInt (p.2.hits + 1) }) :=
  sweep_idempotent_and_fresh twoEntries 400000000000 (by decide)

/-! ## The dependency listing (claim C21) -/

theorem directOnly_cons_direct (dep : Dependency) (rest : List Dependency)
    (h : dep.Type_ = "direct") : directOnly (dep :: rest) = dep :: directOnly rest := by
  simp [directOnly, List.filter_cons, h]

theorem directOnly_cons_other (dep : Dependency) (rest : List Dependency)
    (h : ¬ dep.Type_ = "direct") : directOnly (dep :: rest) = directOnly rest := by
  simp [directOnly, List.filter_cons, h]

/-- The loop over the dependencies counts the direct ones and writes a line for
each of them as long as the counter is at most 10. -/
theorem dependencyFold_eq (deps : List Dependency) :
    ∀ st : Nat × List String,
      deps.foldl dependencyStep st =
        (st.1 + (directOnly deps).length,
          st.2 ++ ((directOnly deps).take (10 - st.1)).map dependencyLine) := by
  induction deps with
  | nil =>
    intro st
    simp [directOnly]
  | cons dep rest ih =>
    intro st
    rw [List.foldl_cons]
    by_cases hd : dep.Type_ = "direct"
    · rw [directOnly_cons_direct dep rest hd]
      by_cases hle : st.1 + 1 ≤ 10
      · have hstep : dependencyStep st dep = (st.1 + 1, st.2 ++ [dependencyLine dep]) := by
          unfold dependencyStep
          rw [if_pos hd, if_pos hle]
        have htake : 10 - st.1 = (10 - (st.1 + 1)) + 1 := by omega
        rw [hstep, ih, htake, List.take_succ_cons, List.map_cons, List.length_cons]
        simp only [List.append_assoc, List.singleton_append]
        congr 1
        omega
      · have hstep : dependencyStep st dep = (st.1 + 1, st.2) := by
          unfold dependencyStep
          rw [if_pos hd, if_neg hle]
        have h0 : 10 - st.1 = 0 := by omega
        have h1 : 10 - (st.1 + 1) = 0 := by omega
        rw [hstep, ih, List.length_cons]
        simp only [h0, h1, List.take_zero]
        congr 1
        omega
    · rw [directOnly_cons_other dep rest hd]
      have hstep : dependencyStep st dep = st := by
        unfold dependencyStep
        rw [if_neg hd]
      rw [hstep, ih]

/-- Claim C21: for every analysis with a non-empty dependency list holding `d`
dependencies of type `direct`, the dependencies section written by
`formatAnalysisResult` is the heading, then one line for each of the first 10
direct dependencies in list order (so `min d 10` lines, none for a dependency
of another type), then the line `... and N more direct dependencies` with
`N = d - 10` exactly when `d > 10`, then an empty line; the other sections of
the message do not list dependencies. -/
theorem dependencies_listing (ToUpper : String → String) (Rel : String → String → String)
    (analysis : ProjectAnalysis) (fromCache : Bool) (hne : analysis.Dependencies ≠ []) :
    messageWrites ToUpper Rel analysis fromCache =
        summaryWrites analysis fromCache ++ servicesWrites ToUpper analysis ++
          (["=== Key Dependencies ===\n"] ++
            ((directOnly analysis.Dependencies).take 10).map dependencyLine ++
            (if 10 < (directOnly analysis.Dependencies).length then
              ["  ... and " ++ toString ((directOnly analysis.Dependencies).length - 10) ++
                " more direct dependencies\n"]
             else []) ++
            ["\n"]) ++
          configsWrites Rel analysis ++ nextStepsWrites ∧
      (((directOnly analysis.Dependencies).take 10).map dependencyLine).length =
        min (directOnly analysis.Dependencies).length 10 := by
  have hlen : analysis.Dependencies.length > 0 := List.length_pos.mpr hne
  have hdeps : dependenciesWrites analysis =
      ["=== Key Dependencies ===\n"] ++
        ((directOnly analysis.Dependencies).take 10).map dependencyLine ++
        (if 10 < (directOnly analysis.Dependencies).length then
          ["  ... and " ++ toString ((directOnly analysis.Dependencies).length - 10) ++
            " more direct dependencies\n"]
         else []) ++
        ["\n"] := by
    unfold dependenciesWrites
    rw [if_pos hlen]
    simp only [dependencyFold_eq, Nat.zero_add, Nat.sub_zero, List.nil_append, gt_iff_lt]
  constructor
  · unfold messageWrites
    rw [hdeps]
  · rw [List.length_map, List.length_take]
    exact Nat.min_comm _ _

/-- The statement of `dependencies_listing` on `manyDepsAnalysis`, with the
section it describes written out: the ten lines of `d1` ... `d10` and the line
announcing 2 more. -/
theorem dependencies_listing_witness :
    (messageWrites id (fun _ q => q) manyDepsAnalysis false =
        summaryWrites manyDepsAnalysis false ++ servicesWrites id manyDepsAnalysis ++
          (["=== Key Dependencies ===\n"] ++
            ((directOnly manyDepsAnalysis.Dependencies).take 10).map dependencyLine ++
            (if 10 < (directOnly manyDepsAnalysis.Dependencies).length then
              ["  ... and " ++ toString ((directOnly manyDepsAnalysis.Dependencies).length - 10) ++
                " more direct dependencies\n"]
             else []) ++
            ["\n"]) ++
          configsWrites (fun _ q => q) manyDepsAnalysis ++ nextStepsWrites ∧
      (((directOnly manyDepsAnalysis.Dependencies).take 10).map dependencyLine).length =
        min (directOnly manyDepsAnalysis.Dependencies).length 10) ∧
    dependenciesWrites manyDepsAnalysis =
      ["=== Key Dependencies ===\n",
       "  - d1 v1\n", "  - d2 v1\n", "  - d3 v1\n", "  - d4 v1\n", "  - d5 v1\n",
       "  - d6 v1\n", "  - d7 v1\n", "  - d8 v1\n", "  - d9 v1\n", "  - d10 v1\n",
       "  ... and 2 more direct dependencies\n", "\n"] :=
  ⟨dependencies_listing id (fun _ q => q) manyDepsAnalysis false (by decide), by decide⟩

end Tools
